import Mathlib

/-
Verification development for the AetherFrequency particle/field simulation.

The simulation core lives in `src/core/models.ts` (data model, configuration,
node-frequency hash) and `src/services/simulation.service.ts` (grid
initialization, spawn controller, the per-tick field dynamics, event
channels).  The embedding below is a shallow one: every JavaScript number is
modelled as an element of a linear ordered field `K` (instantiated at `ℝ` in
the claim theorems, matching the usual idealization of IEEE doubles);
`Math.sqrt`, `Math.sin` and `Math.cos` are supplied through a `FloatOps`
record (instantiated with `Real.sqrt`, `Real.sin`, `Real.cos`); every call to
`Math.random()` or to the wall clock is an explicit oracle argument.  JS `%`
is the truncated remainder `jsMod`, and `Math.round` is `jsRound`
(round-half-up).  In-place mutation of the particle array through object
references is modelled by threading an immutable list and updating the first
particle with a matching id (`updateFirst`), which coincides with the
source's `findIndex`-and-assign pattern.  Cosmetic fields that never feed
back into the dynamics and are referenced by no claim (the HSL-derived node
color, the `pattern` tag) are omitted; particle colors, which participate in
the collision update, are kept as RGB triples.
-/

set_option linter.unusedSectionVars false

namespace Aether

/-- Three JS numbers, the shape of a THREE.Vector3 and of an RGB color. -/
structure Vec3 (K : Type) where
  x : K
  y : K
  z : K
deriving Repr

/-- THREE.Quaternion. -/
structure Quat (K : Type) where
  x : K
  y : K
  z : K
  w : K
deriving Repr

section Defs

variable {K : Type} [LinearOrderedField K] [FloorRing K]

/-- Componentwise vector addition (THREE.Vector3.add). -/
def Vec3.add (a b : Vec3 K) : Vec3 K := ⟨a.x + b.x, a.y + b.y, a.z + b.z⟩

/-- Scalar multiple (THREE.Vector3.multiplyScalar). -/
def Vec3.smul (c : K) (a : Vec3 K) : Vec3 K := ⟨c * a.x, c * a.y, c * a.z⟩

/-- Cross product (THREE.Vector3.crossVectors). -/
def Vec3.cross (a b : Vec3 K) : Vec3 K :=
  ⟨a.y * b.z - a.z * b.y, a.z * b.x - a.x * b.z, a.x * b.y - a.y * b.x⟩

/-- Squared Euclidean length (THREE.Vector3.lengthSq). -/
def Vec3.lengthSq (a : Vec3 K) : K := a.x * a.x + a.y * a.y + a.z * a.z

/-- Linear interpolation toward `b` by `t` (THREE.Color.lerp /
THREE.Vector3.lerp): each component moves by `t` times the difference. -/
def Vec3.lerp (a b : Vec3 K) (t : K) : Vec3 K :=
  ⟨a.x + (b.x - a.x) * t, a.y + (b.y - a.y) * t, a.z + (b.z - a.z) * t⟩

/-- The zero vector / the color black. -/
def vzero : Vec3 K := ⟨0, 0, 0⟩

/-- Sum of a list of vectors, used to state torque decompositions. -/
def vsum : List (Vec3 K) → Vec3 K
  | [] => vzero
  | v :: rest => Vec3.add v (vsum rest)

/-- The square-root / sine / cosine primitives of the host platform.  They are
passed explicitly so that the rest of the embedding stays field-generic; the
claim theorems instantiate them with the real functions. -/
structure FloatOps (K : Type) where
  sqrtFn : K → K
  sinFn : K → K
  cosFn : K → K

/-- The real-number instantiation used by the claim theorems. -/
noncomputable def realOps : FloatOps ℝ := ⟨Real.sqrt, Real.sin, Real.cos⟩

/-- Vector length (THREE.Vector3.length), `sqrt (lengthSq v)`. -/
def vlength (ops : FloatOps K) (v : Vec3 K) : K := ops.sqrtFn (Vec3.lengthSq v)

/-- THREE.Vector3.normalize: `divideScalar (length || 1)`; dividing by 1
leaves the vector unchanged, so a zero length is a no-op. -/
def vnormalize (ops : FloatOps K) (v : Vec3 K) : Vec3 K :=
  let l := vlength ops v
  if l = 0 then v else Vec3.smul (1 / l) v

/-- THREE.Quaternion.setFromAxisAngle (assumes the axis is normalized). -/
def setFromAxisAngle (ops : FloatOps K) (axis : Vec3 K) (angle : K) : Quat K :=
  let halfAngle := angle / 2
  let s := ops.sinFn halfAngle
  ⟨axis.x * s, axis.y * s, axis.z * s, ops.cosFn halfAngle⟩

/-- Hamilton product (THREE.Quaternion.multiplyQuaternions);
`q.premultiply p` is `quatMul p q`. -/
def quatMul (a b : Quat K) : Quat K :=
  ⟨a.x * b.w + a.w * b.x + a.y * b.z - a.z * b.y,
   a.y * b.w + a.w * b.y + a.z * b.x - a.x * b.z,
   a.z * b.w + a.w * b.z + a.x * b.y - a.y * b.x,
   a.w * b.w - a.x * b.x - a.y * b.y - a.z * b.z⟩

/-! ### Configuration (`SIM_CONFIG` in `src/core/models.ts`) -/

/-- SIM_CONFIG.GRID_SIZE. -/
def GRID_SIZE : ℕ := 7

/-- SIM_CONFIG.SPACING. -/
def SPACING : ℤ := 4

/-- SIM_CONFIG.FREQ_RANGE[0]. -/
def FREQ_LO : ℤ := 100

/-- SIM_CONFIG.FREQ_RANGE[1]. -/
def FREQ_HI : ℤ := 999

/-- SIM_CONFIG.MAX_PARTICLES. -/
def MAX_PARTICLES : ℕ := 8

/-- SIM_CONFIG.DEFAULT_AMPLITUDE. -/
def DEFAULT_AMPLITUDE : K := 0.4

/-! ### Data model (`src/core/models.ts`) -/

/-- IntersectionNode.  The string id `"x_y_z"` is modelled by the lattice
coordinate triple itself (the formatting is injective on distinct triples);
the HSL-derived `baseColor` is cosmetic, feeds into no claim and is omitted. -/
structure IntersectionNode (K : Type) where
  id : ℤ × ℤ × ℤ
  position : Vec3 K
  frequency : K
  intensity : K
  isCorner : Bool

/-- ParticleState.  The constant `pattern: 'sine'` tag is omitted; the color
participates in the collision blend and is kept. -/
structure ParticleState (K : Type) where
  id : String
  baseFrequency : K
  locationalFrequency : K
  harmonicFactor : K
  amplitude : K
  energyLevel : K
  color : Vec3 K
  targetNodeId : Option (ℤ × ℤ × ℤ)

/-- CollisionEvent.  The template-string id `` `${nodeId}-${Date.now()}` `` is
modelled by the pair of its two injectively formatted components. -/
structure CollisionEvent (K : Type) where
  id : (ℤ × ℤ × ℤ) × K
  nodeId : ℤ × ℤ × ℤ
  particleIds : List String
  timestamp : K

/-- SupernovaEvent, id `` `sn-${nodeId}-${Date.now()}` `` modelled likewise. -/
structure SupernovaEvent (K : Type) where
  id : (ℤ × ℤ × ℤ) × K
  position : Vec3 K
  timestamp : K

/-! ### Number-theoretic helpers for the JS operators -/

/-- Truncation toward zero, the rounding JS division-based `%` uses. -/
def ktrunc (q : K) : ℤ := if 0 ≤ q then ⌊q⌋ else ⌈q⌉

/-- The JS `%` operator on numbers: truncated remainder.  Its result has the
sign of the dividend, so it is negative for negative dividends. -/
def jsMod (a b : K) : K := a - b * (ktrunc (a / b) : K)

/-- JS `Math.round`: round half toward positive infinity. -/
def jsRound (q : K) : ℤ := ⌊q + 1 / 2⌋

/-- calculateNodeFrequency (`src/core/models.ts`, lines 51-56). -/
def calculateNodeFrequency (pos : Vec3 K) : K :=
  let xComp := (pos.x + 20) * 1.5
  let yComp := (pos.y + 20) * 10.0
  let zComp := (pos.z + 20) * 0.5
  ((jsRound (((FREQ_LO : ℤ) : K) + jsMod (xComp + yComp + zComp) (((FREQ_HI - FREQ_LO : ℤ) : K))) : ℤ) : K)

/-! ### Grid initialization (`initializeNodes`, simulation.service.ts 30-51) -/

/-- `Math.floor(GRID_SIZE / 2)`. -/
def half : ℕ := GRID_SIZE / 2

/-- The loop `for (x = -half; x <= half; x++)`. -/
def gridCoords : List ℤ := (List.range GRID_SIZE).map (fun i => (i : ℤ) - (half : ℤ))

/-- One node of the lattice, as built in the triple loop body. -/
def mkNode (x y z : ℤ) : IntersectionNode K :=
  let pos : Vec3 K := ⟨((x * SPACING : ℤ) : K), ((y * SPACING : ℤ) : K), ((z * SPACING : ℤ) : K)⟩
  { id := (x, y, z)
    position := pos
    frequency := calculateNodeFrequency pos
    intensity := 0.2
    isCorner := decide (|x| = (half : ℤ) ∧ |y| = (half : ℤ) ∧ |z| = (half : ℤ)) }

/-- initializeNodes: the full x/y/z triple loop. -/
def initializeNodes : List (IntersectionNode K) :=
  gridCoords.flatMap (fun x =>
    gridCoords.flatMap (fun y =>
      gridCoords.map (fun z => (mkNode x y z : IntersectionNode K))))

/-! ### Nearest-node lookup (simulation.service.ts 236-242) -/

/-- findNearestNode: `nodes.reduce((prev, curr) => |curr.f - f| < |prev.f - f| ? curr : prev)`.
JS `reduce` without an initial value starts from the first element, and the
strict `<` keeps `prev` on ties, so the first minimal candidate wins. -/
def findNearestNode (nodes : List (IntersectionNode K)) (freq : K) : Option (IntersectionNode K) :=
  match nodes with
  | [] => none
  | n :: rest =>
      some (rest.foldl
        (fun prev curr => if |curr.frequency - freq| < |prev.frequency - freq| then curr else prev) n)

/-- updateTargetNodes (simulation.service.ts 244-249). -/
def updateTargetNodes (nodes : List (IntersectionNode K)) (parts : List (ParticleState K)) :
    List (ParticleState K) :=
  parts.map (fun p =>
    { p with targetNodeId := (findNearestNode nodes p.locationalFrequency).map (fun n => n.id) })

/-! ### Spawn controller (`spawnParticle`, simulation.service.ts 53-84) -/

/-- The random draws consumed by one call to spawnParticle: the node pick,
the frequency jitter, the tiny-grid fallback draw, and the generated id and
HSL color (both opaque to every claim). -/
structure SpawnOracle (K : Type) where
  rPick : K
  rJitter : K
  rFall : K
  newId : String
  newColor : Vec3 K

/-- The frequency chosen by spawnParticle (lines 56-68).  With a supplied
position it is the grid's derived frequency there; otherwise a random
non-corner node's frequency jittered by `(rand - 0.5) * 10`; otherwise the
fallback `200 + rand * 600`.  The JS index `Math.floor(rand * length)` is
modelled with `getD`, the head as default (for `rand ∈ [0,1)` the index is
always in range, so the default is never consulted there). -/
def spawnFrequency (nodes : List (IntersectionNode K)) (posOpt : Option (Vec3 K))
    (o : SpawnOracle K) : K :=
  match posOpt with
  | some pos => calculateNodeFrequency pos
  | none =>
    match nodes.filter (fun n => !n.isCorner) with
    | [] => 200 + o.rFall * 600
    | n0 :: rest =>
      let nonCorner := n0 :: rest
      let idx : ℕ := (⌊o.rPick * (nonCorner.length : K)⌋).toNat
      let randomNode := nonCorner.getD idx n0
      randomNode.frequency + (o.rJitter - 0.5) * 10

/-- spawnParticle: silently a no-op at the population cap, else appends the
new minimum-energy particle and immediately reassigns all target nodes. -/
def spawnParticle (nodes : List (IntersectionNode K)) (parts : List (ParticleState K))
    (posOpt : Option (Vec3 K)) (o : SpawnOracle K) : List (ParticleState K) :=
  if MAX_PARTICLES ≤ parts.length then parts
  else
    let freq := spawnFrequency nodes posOpt o
    let newParticle : ParticleState K :=
      { id := o.newId
        baseFrequency := freq
        locationalFrequency := freq
        harmonicFactor := 1.0
        amplitude := DEFAULT_AMPLITUDE
        energyLevel := 0.1
        color := o.newColor
        targetNodeId := none }
    updateTargetNodes nodes (parts ++ [newParticle])

/-! ### Tick phase 1: drift and decay (simulation.service.ts 98-124) -/

/-- The body of the drift/decay map for one particle.  `omega` is the damped
angular velocity read at the top of the tick (the torque updates later in the
same tick happen after every drift read), `r` is this particle's
`Math.random()` draw. -/
def driftOne (nodes : List (IntersectionNode K)) (omega : Vec3 K) (r : K)
    (p : ParticleState K) : ParticleState K :=
  let drift0 := (r - 0.5) * 4.0
  let drift :=
    if 0.000001 < Vec3.lengthSq omega then
      match p.targetNodeId with
      | none => drift0
      | some tid =>
        match nodes.find? (fun n => decide (n.id = tid)) with
        | none => drift0
        | some targetNode =>
          let influenceVec := Vec3.cross omega targetNode.position
          drift0 + (influenceVec.x + influenceVec.y + influenceVec.z) * 25.0
    else drift0
  { p with
    locationalFrequency := max 100 (min 999 (p.locationalFrequency + drift))
    amplitude := max DEFAULT_AMPLITUDE (p.amplitude - 0.005)
    harmonicFactor := max 1.0 (p.harmonicFactor - 0.02)
    energyLevel := max 0.1 (p.energyLevel - 0.002) }

/-! ### Tick phase 2: target assignment and occupancy (lines 126-135) -/

/-- Insertion into the occupancy map.  A JS Map iterates keys in first
insertion order and `push` appends, which an association list reproduces. -/
def occInsert (occ : List ((ℤ × ℤ × ℤ) × List String)) (nid : ℤ × ℤ × ℤ) (pid : String) :
    List ((ℤ × ℤ × ℤ) × List String) :=
  match occ with
  | [] => [(nid, [pid])]
  | (k, v) :: rest =>
      if k = nid then (k, v ++ [pid]) :: rest else (k, v) :: occInsert rest nid pid

/-- One iteration of the source's `updated.forEach`: rewrite this particle's
target node in place and record it in the occupancy map.  When no node
exists the target is left unchanged, exactly as the `if (target)` guard
does. -/
def assignStep (nodes : List (IntersectionNode K))
    (acc : List (ParticleState K) × List ((ℤ × ℤ × ℤ) × List String)) (p : ParticleState K) :
    List (ParticleState K) × List ((ℤ × ℤ × ℤ) × List String) :=
  match findNearestNode nodes p.locationalFrequency with
  | none => (acc.1 ++ [p], acc.2)
  | some target =>
      (acc.1 ++ [{ p with targetNodeId := some target.id }], occInsert acc.2 target.id p.id)

/-- The single pass that both rewrites every particle's target node and
builds node occupancy (simulation.service.ts 126-135). -/
def assignPass (nodes : List (IntersectionNode K)) (parts : List (ParticleState K)) :
    List (ParticleState K) × List ((ℤ × ℤ × ℤ) × List String) :=
  parts.foldl (assignStep nodes) ([], [])

/-! ### Tick phase 3: torque, collisions, supernovas (lines 137-217) -/

/-- Replace the first particle whose id matches (the `findIndex` +
field-assignment pattern of the source; ids are unique in every reachable
store, so at most one particle matches anyway). -/
def updateFirst (f : ParticleState K → ParticleState K) (pid : String) :
    List (ParticleState K) → List (ParticleState K)
  | [] => []
  | p :: rest => if p.id = pid then f p :: rest else p :: updateFirst f pid rest

/-- One iteration of the `collidingParticles.forEach` body (lines 168-202).
The source mutates the shared array through object references, so every read
of a colliding particle sees the values left by the iterations already
processed; the fold therefore re-reads every participant from the current
list.  Within one iteration all right-hand sides are computed from the
participant's pre-assignment fields (each field is read before it is
written), so the four assignments collapse into one record update. -/
def collisionStep (ids : List String) (acc : List (ParticleState K) × Bool) (pid : String) :
    List (ParticleState K) × Bool :=
  let st := acc.1
  match st.find? (fun p => decide (p.id = pid)) with
  | none => acc
  | some currentParticle =>
    let otherIds := ids.filter (fun i => decide (i ≠ pid))
    let otherParticles := otherIds.filterMap (fun i => st.find? (fun p => decide (p.id = i)))
    if otherParticles.length = 0 then acc
    else
      let avgOtherBaseFrequency :=
        (otherParticles.map (fun p => p.baseFrequency)).sum / (otherParticles.length : K)
      let avgOtherAmplitude :=
        (otherParticles.map (fun p => p.amplitude)).sum / (otherParticles.length : K)
      let avgColor :=
        Vec3.smul (1 / (otherParticles.length : K))
          ((otherParticles.map (fun p => p.color)).foldl Vec3.add vzero)
      let maxFreqDiff : K := ((FREQ_HI - FREQ_LO : ℤ) : K)
      let freqDifference := |currentParticle.baseFrequency - avgOtherBaseFrequency|
      let resonanceFactor := (1 - freqDifference / maxFreqDiff) ^ 2
      let amplitudeFactor := (currentParticle.amplitude + avgOtherAmplitude) / 2
      let harmonicIncrease :=
        resonanceFactor * amplitudeFactor * (0.6 + (otherParticles.length : K) * 0.2)
      let newHarmonic := min 4.0 (currentParticle.harmonicFactor + harmonicIncrease)
      let newAmplitude := min 1.0 (currentParticle.amplitude + amplitudeFactor * 0.15)
      let newEnergy := min 1.0 (currentParticle.energyLevel + 0.2 * (otherParticles.length : K))
      let newColor := Vec3.lerp currentParticle.color avgColor 0.15
      (updateFirst
          (fun q =>
            { q with
              harmonicFactor := newHarmonic
              amplitude := newAmplitude
              energyLevel := newEnergy
              color := newColor }) pid st,
       acc.2 || decide ((1.0 : K) ≤ newEnergy))

/-- The whole `collidingParticles.forEach` loop: fold the per-participant
step over the colliding ids, also accumulating `supernovaTriggered`. -/
def collisionFold (ids : List String) (st : List (ParticleState K)) :
    List (ParticleState K) × Bool :=
  ids.foldl (collisionStep ids) (st, false)

/-- The corner-weight mechanic (lines 146-154): every occupying particle with
energy above 0.2 adds `normalize(node.position) * (energyLevel * 0.0005)`
to the angular velocity. -/
def cornerTorqueFold (ops : FloatOps K) (node : IntersectionNode K)
    (st : List (ParticleState K)) (pIds : List String) (w0 : Vec3 K) : Vec3 K :=
  pIds.foldl
    (fun w pid =>
      match st.find? (fun p => decide (p.id = pid)) with
      | none => w
      | some particle =>
          if 0.2 < particle.energyLevel then
            Vec3.add w (Vec3.smul (particle.energyLevel * 0.0005) (vnormalize ops node.position))
          else w) w0

/-- The mutable state threaded through the `nodeOccupancy.forEach` loop:
the particle array, the angular-velocity signal, the two event channels' new
entries, the removal mark set, and the explosion counter. -/
structure PhaseAcc (K : Type) where
  state : List (ParticleState K)
  omega : Vec3 K
  collisions : List (CollisionEvent K)
  supernovas : List (SupernovaEvent K)
  toRemove : List String
  explosions : ℕ

/-- The body of `nodeOccupancy.forEach` (lines 141-217) for one node entry:
corner torque first, then (for two or more occupants) the collision event,
the resonance fold, and the supernova resolution which only MARKS particles
for removal. -/
def processNode (ops : FloatOps K) (nodes : List (IntersectionNode K)) (now : K)
    (acc : PhaseAcc K) (entry : (ℤ × ℤ × ℤ) × List String) : PhaseAcc K :=
  match nodes.find? (fun n => decide (n.id = entry.1)) with
  | none => acc
  | some node =>
    let acc1 :=
      if node.isCorner then
        { acc with omega := cornerTorqueFold ops node acc.state entry.2 acc.omega }
      else acc
    if 1 < entry.2.length then
      let ev : CollisionEvent K :=
        { id := (entry.1, now), nodeId := entry.1, particleIds := entry.2, timestamp := now }
      let acc2 := { acc1 with collisions := acc1.collisions ++ [ev] }
      let collidingIds :=
        (entry.2.filterMap (fun pid => acc2.state.find? (fun p => decide (p.id = pid)))).map
          (fun p => p.id)
      if 1 < collidingIds.length then
        let res := collisionFold collidingIds acc2.state
        if res.2 then
          { acc2 with
            state := res.1
            supernovas :=
              acc2.supernovas ++ [{ id := (entry.1, now), position := node.position, timestamp := now }]
            toRemove := acc2.toRemove ++ entry.2
            explosions := acc2.explosions + 1 }
        else { acc2 with state := res.1 }
      else acc2
    else acc1

/-- The colliding ids as the source computes them: the occupant ids resolved
against the store and mapped back to ids (`pIds.map(find).filter(Boolean)`
followed by reading the references' ids). -/
def collidingIdsOf (st : List (ParticleState K)) (pIds : List String) : List String :=
  (pIds.filterMap (fun pid => st.find? (fun p => decide (p.id = pid)))).map (fun p => p.id)

/-- Whether the node entry's collision, processed against store `st`, sets
the supernova flag (spec: some participant's energy reaches 1.0 after its
update). -/
def nodeTriggered (nodes : List (IntersectionNode K)) (st : List (ParticleState K))
    (entry : (ℤ × ℤ × ℤ) × List String) : Bool :=
  match nodes.find? (fun n => decide (n.id = entry.1)) with
  | none => false
  | some _ =>
    if 1 < entry.2.length then
      if 1 < (collidingIdsOf st entry.2).length then
        (collisionFold (collidingIdsOf st entry.2) st).2
      else false
    else false

/-- The supernova event a triggering node publishes: one event carrying that
node's position. -/
def snEventOf (nodes : List (IntersectionNode K)) (now : K)
    (entry : (ℤ × ℤ × ℤ) × List String) : List (SupernovaEvent K) :=
  match nodes.find? (fun n => decide (n.id = entry.1)) with
  | none => []
  | some node => [{ id := (entry.1, now), position := node.position, timestamp := now }]

/-- The occupants of a node that qualify for corner torque: resolvable in
the store with energy strictly above 0.2. -/
def qualifyingOcc (st : List (ParticleState K)) (pIds : List String) :
    List (ParticleState K) :=
  (pIds.filterMap (fun pid => st.find? (fun p => decide (p.id = pid)))).filter
    (fun p => decide (0.2 < p.energyLevel))

/-- The total torque one node entry adds to the angular velocity, as the
spec words it: nothing unless the node exists and is a corner, else the sum
over qualifying occupants of `normalize(node.position) * (energy * 0.0005)`. -/
def nodeTorque (ops : FloatOps K) (nodes : List (IntersectionNode K))
    (st : List (ParticleState K)) (entry : (ℤ × ℤ × ℤ) × List String) : Vec3 K :=
  match nodes.find? (fun n => decide (n.id = entry.1)) with
  | none => vzero
  | some node =>
    if node.isCorner then
      vsum ((qualifyingOcc st entry.2).map
        (fun p => Vec3.smul (p.energyLevel * 0.0005) (vnormalize ops node.position)))
    else vzero

/-- Replay of the occupancy fold collecting, per node entry, the torque it
contributes (read against the store as of that entry). -/
def torqueTrace (ops : FloatOps K) (nodes : List (IntersectionNode K)) (now : K) :
    PhaseAcc K → List ((ℤ × ℤ × ℤ) × List String) → List (Vec3 K)
  | _, [] => []
  | acc, e :: rest =>
      nodeTorque ops nodes acc.state e
        :: torqueTrace ops nodes now (processNode ops nodes now acc e) rest

/-- Replay of the occupancy fold that records, per node entry, whether its
collision triggered a supernova (read against the store as of that entry). -/
def triggeredFlags (ops : FloatOps K) (nodes : List (IntersectionNode K)) (now : K) :
    PhaseAcc K → List ((ℤ × ℤ × ℤ) × List String) → List Bool
  | _, [] => []
  | acc, e :: rest =>
      nodeTriggered nodes acc.state e
        :: triggeredFlags ops nodes now (processNode ops nodes now acc e) rest

/-- Replay of the occupancy fold collecting the supernova events published,
in order. -/
def supernovasOf (ops : FloatOps K) (nodes : List (IntersectionNode K)) (now : K) :
    PhaseAcc K → List ((ℤ × ℤ × ℤ) × List String) → List (SupernovaEvent K)
  | _, [] => []
  | acc, e :: rest =>
      (if nodeTriggered nodes acc.state e then snEventOf nodes now e else [])
        ++ supernovasOf ops nodes now (processNode ops nodes now acc e) rest

/-- Replay of the occupancy fold collecting the particle ids marked for
removal, in order. -/
def removalsOf (ops : FloatOps K) (nodes : List (IntersectionNode K)) (now : K) :
    PhaseAcc K → List ((ℤ × ℤ × ℤ) × List String) → List String
  | _, [] => []
  | acc, e :: rest =>
      (if nodeTriggered nodes acc.state e then e.2 else [])
        ++ removalsOf ops nodes now (processNode ops nodes now acc e) rest

/-- globalAmplitude (simulation.service.ts 16-20). -/
def globalAmplitude (parts : List (ParticleState K)) : K :=
  if parts.length = 0 then 0
  else (parts.map (fun p => p.amplitude)).sum / (parts.length : K)

/-- The whole published simulation state. -/
structure SimState (K : Type) where
  nodes : List (IntersectionNode K)
  particles : List (ParticleState K)
  collisionEvents : List (CollisionEvent K)
  supernovaEvents : List (SupernovaEvent K)
  gridRotation : Quat K
  gridAngularVelocity : Vec3 K

/-- The random draws consumed by one tick: a `Math.random()` per particle in
drift order, plus one spawn oracle for the stabilization-rule spawn. -/
structure TickOracle (K : Type) where
  jitter : ℕ → K
  spawnO : SpawnOracle K

/-- What one tick produces: the new published state, the number of
replacement spawns queued by `setTimeout` (to run after the tick, never
inline), and the event-expiry removals scheduled by `setTimeout` (event id
paired with its due time, publish time plus lifetime). -/
structure TickResult (K : Type) where
  state : SimState K
  scheduledSpawns : ℕ
  collisionRemovalsDue : List (((ℤ × ℤ × ℤ) × K) × K)
  supernovaRemovalsDue : List (((ℤ × ℤ × ℤ) × K) × K)

/-- Collision events live 1500 ms (setTimeout at line 162). -/
def COLLISION_LIFETIME : K := 1500

/-- Supernova events live 2000 ms (setTimeout at line 211). -/
def SUPERNOVA_LIFETIME : K := 2000

/-- Tick phase 1 for the particles: the drift/decay map, reading the damped
angular velocity computed at the top of the tick. -/
def tickUpdated (o : TickOracle K) (s : SimState K) : List (ParticleState K) :=
  s.particles.mapIdx
    (fun i p => driftOne s.nodes (Vec3.smul 0.97 s.gridAngularVelocity) (o.jitter i) p)

/-- The occupancy map the tick's reassignment pass produces. -/
def tickEntries (o : TickOracle K) (s : SimState K) : List ((ℤ × ℤ × ℤ) × List String) :=
  (assignPass s.nodes (tickUpdated o s)).2

/-- The accumulator entering the tick's occupancy loop: the reassigned
particles, the damped angular velocity, empty event/removal lists. -/
def tickInit (o : TickOracle K) (s : SimState K) : PhaseAcc K :=
  { state := (assignPass s.nodes (tickUpdated o s)).1
    omega := Vec3.smul 0.97 s.gridAngularVelocity
    collisions := []
    supernovas := []
    toRemove := []
    explosions := 0 }

/-- Phases 2-3 of the tick: the drift/decay map over the particles, the
target-reassignment/occupancy pass, and the per-node
torque/collision/supernova loop, returning the threaded accumulator. -/
def tickAcc (ops : FloatOps K) (o : TickOracle K) (now : K) (s : SimState K) : PhaseAcc K :=
  (tickEntries o s).foldl (processNode ops s.nodes now) (tickInit o s)

/-- processFieldDynamics (simulation.service.ts 86-234): damping and the
incremental rotation, the drift/decay map, target reassignment and occupancy,
the per-node torque/collision/supernova loop, the mark-then-filter removal,
the deferred replacement spawns, and the population-pressure rule. -/
def processFieldDynamics (ops : FloatOps K) (o : TickOracle K) (now : K) (s : SimState K) :
    TickResult K :=
  let omega1 := Vec3.smul 0.97 s.gridAngularVelocity
  let rot1 :=
    if 0.000001 < Vec3.lengthSq omega1 then
      quatMul (setFromAxisAngle ops (vnormalize ops omega1) (vlength ops omega1)) s.gridRotation
    else s.gridRotation
  let acc := tickAcc ops o now s
  let finalParticles := acc.state.filter (fun p => !(acc.toRemove.contains p.id))
  let final2 :=
    if 0.7 ≤ globalAmplitude finalParticles ∧ finalParticles.length < 3 then
      spawnParticle s.nodes finalParticles none o.spawnO
    else finalParticles
  { state :=
      { s with
        particles := final2
        collisionEvents := s.collisionEvents ++ acc.collisions
        supernovaEvents := s.supernovaEvents ++ acc.supernovas
        gridRotation := rot1
        gridAngularVelocity := acc.omega }
    scheduledSpawns := acc.explosions
    collisionRemovalsDue := acc.collisions.map (fun e => (e.id, e.timestamp + COLLISION_LIFETIME))
    supernovaRemovalsDue := acc.supernovas.map (fun e => (e.id, e.timestamp + SUPERNOVA_LIFETIME)) }

/-! ### Event-channel semantics (spec section 4.4; setTimeout lines 162, 211)

The store-and-expire behaviour of the two event signals: an event published
at time `tp` with lifetime `L` is removed by the timer exactly at `tp + L`,
and the removal callback filters by the event's id only. -/

/-- The removal callback of the collision channel:
`events.filter(e => e.id !== collisionEvent.id)`. -/
def removeCollisionById (events : List (CollisionEvent K)) (eid : (ℤ × ℤ × ℤ) × K) :
    List (CollisionEvent K) :=
  events.filter (fun e => !(decide (e.id = eid)))

/-- The removal callback of the supernova channel. -/
def removeSupernovaById (events : List (SupernovaEvent K)) (eid : (ℤ × ℤ × ℤ) × K) :
    List (SupernovaEvent K) :=
  events.filter (fun e => !(decide (e.id = eid)))

/-- The contents of a publish-then-expire channel at time `t`, under the
timer semantics that a removal scheduled for `tp + L` has fired exactly when
`tp + L ≤ t`: the events published no later than `t` whose removal has not
yet fired. -/
def channelContents {E : Type} (pubs : List (E × K)) (lifetime : K) (t : K) : List E :=
  (pubs.filter (fun pe => decide (pe.2 ≤ t) && decide (t < pe.2 + lifetime))).map (fun pe => pe.1)

/-! ### Spec-side definitions

Each of these follows the wording of the specification (not the source); the
claim theorems compare them with the definitions translated from the source
above. -/

/-- Mathematical (floor-based) modulus, the reading of `mod` in the spec's
node-frequency formula. -/
def mathMod (a b : K) : K := a - b * ((⌊a / b⌋ : ℤ) : K)

/-- The node-frequency formula exactly as the spec states it:
`round(baseFreqLow + ((x+20)*1.5 + (y+20)*10.0 + (z+20)*0.5) mod (baseFreqHigh-baseFreqLow))`
with the configured band `[100, 999]`. -/
def specNodeFrequency (pos : Vec3 K) : K :=
  ((jsRound ((100 : K) + mathMod ((pos.x + 20) * 1.5 + (pos.y + 20) * 10.0 + (pos.z + 20) * 0.5) 899) : ℤ) : K)

/-- Nearest-node lookup exactly as the spec words it: the nearest node by
absolute frequency distance, ties broken by iteration order — the first
minimal candidate wins.  Structurally: the head wins unless some later node
is strictly closer. -/
def firstNearest (freq : K) : List (IntersectionNode K) → Option (IntersectionNode K)
  | [] => none
  | n :: rest =>
    match firstNearest freq rest with
    | none => some n
    | some m => some (if |m.frequency - freq| < |n.frequency - freq| then m else n)

/-- The per-particle effect of the target-reassignment pass, as the spec
words it: the target becomes the nearest node's id, and is left alone when
no node exists. -/
def assignTargetOf (nodes : List (IntersectionNode K)) (p : ParticleState K) : ParticleState K :=
  match findNearestNode nodes p.locationalFrequency with
  | none => p
  | some target => { p with targetNodeId := some target.id }

/-- The other occupants of a collision, seen from participant `pid`: the
remaining colliding ids resolved against the current particle list. -/
def othersOf (ids : List String) (st : List (ParticleState K)) (pid : String) :
    List (ParticleState K) :=
  (ids.filter (fun i => decide (i ≠ pid))).filterMap
    (fun i => st.find? (fun p => decide (p.id = i)))

/-- Mean base frequency of a collision's other occupants. -/
def avgBaseOf (others : List (ParticleState K)) : K :=
  (others.map (fun p => p.baseFrequency)).sum / (others.length : K)

/-- Mean amplitude of a collision's other occupants. -/
def avgAmpOf (others : List (ParticleState K)) : K :=
  (others.map (fun p => p.amplitude)).sum / (others.length : K)

/-- Mean color of a collision's other occupants. -/
def avgColorOf (others : List (ParticleState K)) : Vec3 K :=
  Vec3.smul (1 / (others.length : K)) ((others.map (fun p => p.color)).foldl Vec3.add vzero)

/-- The spec's resonance factor,
`(1 - |baseFreq - avgOtherBaseFreq| / fullRangeWidth)^2` with the full range
width 899, computed from the immutable base frequency. -/
def resonanceFactorOf (cur : ParticleState K) (others : List (ParticleState K)) : K :=
  (1 - |cur.baseFrequency - avgBaseOf others| / 899) ^ 2

/-- The spec's amplitude factor, the mean of the participant's own amplitude
and the others' average amplitude. -/
def amplitudeFactorOf (cur : ParticleState K) (others : List (ParticleState K)) : K :=
  (cur.amplitude + avgAmpOf others) / 2

/-- The collision update of one participant exactly as the spec words it:
harmonicFactor grows by `resonance * amplitudeFactor * (0.6 + 0.2*numOthers)`
capped at 4.0, amplitude by `amplitudeFactor * 0.15` capped at 1.0,
energyLevel by `0.2 * numOthers` capped at 1.0, and the color blends 15%
toward the others' average. -/
def specCollisionUpdate (cur : ParticleState K) (others : List (ParticleState K)) :
    ParticleState K :=
  { cur with
    harmonicFactor :=
      min 4.0 (cur.harmonicFactor
        + resonanceFactorOf cur others * amplitudeFactorOf cur others
            * (0.6 + (others.length : K) * 0.2))
    amplitude := min 1.0 (cur.amplitude + amplitudeFactorOf cur others * 0.15)
    energyLevel := min 1.0 (cur.energyLevel + 0.2 * (others.length : K))
    color := Vec3.lerp cur.color (avgColorOf others) 0.15 }

/-- The published bounds of one particle's attributes (spec section 3 and
section 8): frequency in the band, amplitude in `[0.4, 1]`, harmonic factor
in `[1, 4]`, energy in `[0.1, 1]`. -/
def InBounds (p : ParticleState K) : Prop :=
  100 ≤ p.locationalFrequency ∧ p.locationalFrequency ≤ 999
    ∧ DEFAULT_AMPLITUDE ≤ p.amplitude ∧ p.amplitude ≤ 1
    ∧ 1 ≤ p.harmonicFactor ∧ p.harmonicFactor ≤ 4
    ∧ 0.1 ≤ p.energyLevel ∧ p.energyLevel ≤ 1

/-- The store-wide bounds invariant. -/
def StoreInv (parts : List (ParticleState K)) : Prop := ∀ p ∈ parts, InBounds p

end Defs

section Lemmas

variable {K : Type} [LinearOrderedField K] [FloorRing K]

/-- jsRound is the identity on integers. -/
theorem jsRound_intCast (m : ℤ) : jsRound ((m : K)) = m := by
  unfold jsRound
  rw [Int.floor_eq_iff]
  constructor
  · have : (0 : K) ≤ 1 / 2 := by norm_num
    linarith
  · have : (1 : K) / 2 < 1 := by norm_num
    linarith

/-- On a nonnegative dividend and positive divisor, the JS `%` agrees with
the mathematical modulus. -/
theorem jsMod_eq_mathMod {a b : K} (ha : 0 ≤ a) (hb : 0 < b) : jsMod a b = mathMod a b := by
  unfold jsMod mathMod ktrunc
  rw [if_pos (div_nonneg ha hb.le)]

/-- For a dividend already inside `[0, b)` the mathematical modulus does
nothing. -/
theorem mathMod_eq_self {a b : K} (ha : 0 ≤ a) (hab : a < b) : mathMod a b = a := by
  have hb : 0 < b := lt_of_le_of_lt ha hab
  unfold mathMod
  have h0 : ⌊a / b⌋ = 0 := by
    rw [Int.floor_eq_zero_iff]
    constructor
    · exact div_nonneg ha hb.le
    · rw [div_lt_one hb]
      exact hab
  rw [h0]
  push_cast
  ring

/-- Membership in the coordinate list of the lattice loop. -/
theorem mem_gridCoords {x : ℤ} (hx : x ∈ gridCoords) : -3 ≤ x ∧ x ≤ 3 := by
  have hall : ∀ y ∈ gridCoords, -3 ≤ y ∧ y ≤ 3 := by decide
  exact hall x hx

/-- Every generated node comes from a lattice triple with coordinates in
`[-3, 3]`. -/
theorem mem_initializeNodes {n : IntersectionNode K}
    (hn : n ∈ (initializeNodes : List (IntersectionNode K))) :
    ∃ x y z : ℤ, (-3 ≤ x ∧ x ≤ 3) ∧ (-3 ≤ y ∧ y ≤ 3) ∧ (-3 ≤ z ∧ z ≤ 3) ∧ n = mkNode x y z := by
  unfold initializeNodes at hn
  simp only [List.mem_flatMap, List.mem_map] at hn
  obtain ⟨x, hx, y, hy, z, hz, rfl⟩ := hn
  exact ⟨x, y, z, mem_gridCoords hx, mem_gridCoords hy, mem_gridCoords hz, rfl⟩

/-- Closed form of a lattice node's frequency: position `(4x, 4y, 4z)` gives
`340 + 6x + 40y + 2z` (the modulus never wraps on the actual grid, where the
weighted sum stays inside `[96, 384]`). -/
theorem mkNode_frequency {x y z : ℤ} (hx : -3 ≤ x) (hx2 : x ≤ 3) (hy : -3 ≤ y) (hy2 : y ≤ 3)
    (hz : -3 ≤ z) (hz2 : z ≤ 3) :
    (mkNode x y z : IntersectionNode K).frequency = ((340 + 6 * x + 40 * y + 2 * z : ℤ) : K) := by
  have hSlo : (96 : ℤ) ≤ 240 + 6 * x + 40 * y + 2 * z := by omega
  have hShi : 240 + 6 * x + 40 * y + 2 * z ≤ (384 : ℤ) := by omega
  unfold mkNode calculateNodeFrequency SPACING FREQ_LO FREQ_HI
  have hS : (((x * 4 : ℤ) : K) + 20) * 1.5 + (((y * 4 : ℤ) : K) + 20) * 10.0
      + (((z * 4 : ℤ) : K) + 20) * 0.5 = ((240 + 6 * x + 40 * y + 2 * z : ℤ) : K) := by
    push_cast
    ring
  simp only [hS]
  have h899 : ((999 - 100 : ℤ) : K) = 899 := by norm_num
  have hnn : (0 : K) ≤ ((240 + 6 * x + 40 * y + 2 * z : ℤ) : K) := by
    have : ((0 : ℤ) : K) ≤ ((240 + 6 * x + 40 * y + 2 * z : ℤ) : K) := by
      exact_mod_cast le_trans (by norm_num) hSlo
    simpa using this
  have hlt : ((240 + 6 * x + 40 * y + 2 * z : ℤ) : K) < 899 := by
    have : ((240 + 6 * x + 40 * y + 2 * z : ℤ) : K) < ((899 : ℤ) : K) := by
      exact_mod_cast lt_of_le_of_lt hShi (by norm_num)
    simpa using this
  rw [h899, jsMod_eq_mathMod hnn (by norm_num), mathMod_eq_self hnn hlt]
  have hsum : ((100 : ℤ) : K) + ((240 + 6 * x + 40 * y + 2 * z : ℤ) : K)
      = ((340 + 6 * x + 40 * y + 2 * z : ℤ) : K) := by
    push_cast
    ring
  rw [hsum, jsRound_intCast]

/-- The source frequency function agrees with the spec's formula whenever the
weighted positional sum is nonnegative (true for every lattice point). -/
theorem calculateNodeFrequency_eq_spec {pos : Vec3 K}
    (h : 0 ≤ (pos.x + 20) * 1.5 + (pos.y + 20) * 10.0 + (pos.z + 20) * 0.5) :
    calculateNodeFrequency pos = specNodeFrequency pos := by
  simp only [calculateNodeFrequency, specNodeFrequency, FREQ_LO, FREQ_HI]
  norm_num at h ⊢
  rw [jsMod_eq_mathMod h (by norm_num : (0 : K) < 899)]

/-- Frequency bounds on the actual grid: every generated node's frequency
lies in `[196, 484]`. -/
theorem initializeNodes_frequency_bounds {n : IntersectionNode K}
    (hn : n ∈ (initializeNodes : List (IntersectionNode K))) :
    (196 : K) ≤ n.frequency ∧ n.frequency ≤ 484 := by
  obtain ⟨x, y, z, ⟨hx, hx2⟩, ⟨hy, hy2⟩, ⟨hz, hz2⟩, rfl⟩ := mem_initializeNodes hn
  rw [mkNode_frequency hx hx2 hy hy2 hz hz2]
  constructor
  · have : (196 : ℤ) ≤ 340 + 6 * x + 40 * y + 2 * z := by omega
    exact_mod_cast this
  · have : 340 + 6 * x + 40 * y + 2 * z ≤ (484 : ℤ) := by omega
    exact_mod_cast this

/-- Every generated node records the weighted positional sum of a lattice
point, which is nonnegative. -/
theorem initializeNodes_possum_nonneg {n : IntersectionNode K}
    (hn : n ∈ (initializeNodes : List (IntersectionNode K))) :
    0 ≤ (n.position.x + 20) * 1.5 + (n.position.y + 20) * 10.0 + (n.position.z + 20) * 0.5 := by
  obtain ⟨x, y, z, ⟨hx, hx2⟩, ⟨hy, hy2⟩, ⟨hz, hz2⟩, rfl⟩ := mem_initializeNodes hn
  unfold mkNode SPACING
  simp only
  have hS : (((x * 4 : ℤ) : K) + 20) * 1.5 + (((y * 4 : ℤ) : K) + 20) * 10.0
      + (((z * 4 : ℤ) : K) + 20) * 0.5 = ((240 + 6 * x + 40 * y + 2 * z : ℤ) : K) := by
    push_cast
    ring
  rw [hS]
  have : (0 : ℤ) ≤ 240 + 6 * x + 40 * y + 2 * z := by omega
  exact_mod_cast this

/-- A generated node is the pure node-construction function of its own
lattice id. -/
theorem mem_initializeNodes_eq_mkNode {n : IntersectionNode K}
    (hn : n ∈ (initializeNodes : List (IntersectionNode K))) :
    n = mkNode n.id.1 n.id.2.1 n.id.2.2 := by
  obtain ⟨x, y, z, _, _, _, rfl⟩ := mem_initializeNodes hn
  rfl

/-- The JS `reduce` of `findNearestNode`, started from any accumulator,
computes the first-minimal candidate of the tail, compared against the
accumulator with the same tie-breaking rule. -/
theorem foldl_nearest_eq_firstNearest (freq : K) (l : List (IntersectionNode K)) :
    ∀ a, l.foldl
        (fun prev curr =>
          if |curr.frequency - freq| < |prev.frequency - freq| then curr else prev) a
      = (match firstNearest freq l with
         | none => a
         | some m => if |m.frequency - freq| < |a.frequency - freq| then m else a) := by
  induction l with
  | nil => intro a; simp [firstNearest]
  | cons c rest IH =>
    intro a
    rw [List.foldl_cons, IH]
    cases h : firstNearest freq rest with
    | none => simp [firstNearest, h]
    | some m =>
      simp only [firstNearest, h]
      split_ifs <;> first
        | rfl
        | (exfalso; simp only [not_lt] at *; linarith)

/-- The source lookup equals the spec-side first-minimal lookup. -/
theorem findNearestNode_eq_firstNearest (nodes : List (IntersectionNode K)) (freq : K) :
    findNearestNode nodes freq = firstNearest freq nodes := by
  cases nodes with
  | nil => rfl
  | cons n rest =>
    have hdef : findNearestNode (n :: rest) freq
        = some (rest.foldl
            (fun prev curr =>
              if |curr.frequency - freq| < |prev.frequency - freq| then curr else prev) n) := rfl
    rw [hdef, foldl_nearest_eq_firstNearest]
    cases h : firstNearest freq rest <;> simp [firstNearest, h]

/-- The first-minimal lookup returns nothing exactly on the empty list. -/
theorem firstNearest_none_iff {freq : K} {l : List (IntersectionNode K)} :
    firstNearest freq l = none ↔ l = [] := by
  cases l with
  | nil => simp [firstNearest]
  | cons c rest =>
    simp only [firstNearest]
    cases h : firstNearest freq rest <;> simp [h]

/-- The first-minimal candidate is a member of the list. -/
theorem firstNearest_mem {freq : K} {l : List (IntersectionNode K)} :
    ∀ {m : IntersectionNode K}, firstNearest freq l = some m → m ∈ l := by
  induction l with
  | nil => intro m h; simp [firstNearest] at h
  | cons c rest IH =>
    intro m h
    simp only [firstNearest] at h
    cases hr : firstNearest freq rest with
    | none =>
      rw [hr] at h
      simp only [Option.some.injEq] at h
      simp [← h]
    | some m2 =>
      rw [hr] at h
      simp only [Option.some.injEq] at h
      by_cases hlt : |m2.frequency - freq| < |c.frequency - freq|
      · rw [if_pos hlt] at h
        exact List.mem_cons_of_mem c (h ▸ IH hr)
      · rw [if_neg hlt] at h
        simp [← h]

/-- The first-minimal candidate minimizes the absolute frequency distance. -/
theorem firstNearest_min {freq : K} {l : List (IntersectionNode K)} :
    ∀ {m : IntersectionNode K}, firstNearest freq l = some m →
      ∀ n ∈ l, |m.frequency - freq| ≤ |n.frequency - freq| := by
  induction l with
  | nil => intro m h; simp [firstNearest] at h
  | cons c rest IH =>
    intro m h
    simp only [firstNearest] at h
    intro n hn
    rcases List.mem_cons.mp hn with hn | hn
    · subst hn
      cases hr : firstNearest freq rest with
      | none =>
        rw [hr] at h
        simp only [Option.some.injEq] at h
        rw [← h]
      | some m2 =>
        rw [hr] at h
        simp only [Option.some.injEq] at h
        by_cases hlt : |m2.frequency - freq| < |n.frequency - freq|
        · rw [if_pos hlt] at h
          rw [← h]
          exact hlt.le
        · rw [if_neg hlt] at h
          rw [← h]
    · cases hr : firstNearest freq rest with
      | none =>
        have : rest = [] := firstNearest_none_iff.mp hr
        subst this
        simp at hn
      | some m2 =>
        rw [hr] at h
        simp only [Option.some.injEq] at h
        have hmin := IH hr n hn
        by_cases hlt : |m2.frequency - freq| < |c.frequency - freq|
        · rw [if_pos hlt] at h
          rw [← h]
          exact hmin
        · rw [if_neg hlt] at h
          rw [← h]
          exact le_trans (not_lt.mp hlt) hmin

/-- The reassignment pass, started from any accumulator, appends the
per-particle reassignments in order. -/
theorem foldl_assignStep_fst (nodes : List (IntersectionNode K)) (parts : List (ParticleState K)) :
    ∀ acc, (parts.foldl (assignStep nodes) acc).1 = acc.1 ++ parts.map (assignTargetOf nodes) := by
  induction parts with
  | nil => intro acc; simp
  | cons p rest IH =>
    intro acc
    rw [List.foldl_cons, IH]
    cases h : findNearestNode nodes p.locationalFrequency <;>
      simp [assignStep, assignTargetOf, h]

/-- The particle component of the reassignment pass is the per-particle map
of the spec. -/
theorem assignPass_fst (nodes : List (IntersectionNode K)) (parts : List (ParticleState K)) :
    (assignPass nodes parts).1 = parts.map (assignTargetOf nodes) := by
  unfold assignPass
  rw [foldl_assignStep_fst]
  rfl

/-- A particle that survives `updateFirst` is either an untouched member of
the original list or the image under the update of some member. -/
theorem mem_updateFirst {f : ParticleState K → ParticleState K} {pid : String} :
    ∀ {st : List (ParticleState K)} {q' : ParticleState K},
      q' ∈ updateFirst f pid st → q' ∈ st ∨ ∃ q ∈ st, q' = f q := by
  intro st
  induction st with
  | nil => intro q' h; simp [updateFirst] at h
  | cons p rest IH =>
    intro q' h
    unfold updateFirst at h
    by_cases hid : p.id = pid
    · rw [if_pos hid] at h
      rcases List.mem_cons.mp h with h | h
      · exact Or.inr ⟨p, List.mem_cons_self p rest, h⟩
      · exact Or.inl (List.mem_cons_of_mem p h)
    · rw [if_neg hid] at h
      rcases List.mem_cons.mp h with h | h
      · exact Or.inl (h ▸ List.mem_cons_self p rest)
      · rcases IH h with h2 | ⟨q, hq, he⟩
        · exact Or.inl (List.mem_cons_of_mem p h2)
        · exact Or.inr ⟨q, List.mem_cons_of_mem p hq, he⟩

/-- The other occupants resolved from the store are members of the store. -/
theorem mem_othersOf {ids : List String} {st : List (ParticleState K)} {pid : String}
    {q : ParticleState K} (h : q ∈ othersOf ids st pid) : q ∈ st := by
  unfold othersOf at h
  obtain ⟨i, _, hfind⟩ := List.mem_filterMap.mp h
  exact List.mem_of_find?_eq_some hfind

/-- collisionStep at an unresolvable participant id is a no-op. -/
theorem collisionStep_none {ids : List String} {st : List (ParticleState K)} {b : Bool}
    {pid : String} (h : st.find? (fun p => decide (p.id = pid)) = none) :
    collisionStep ids (st, b) pid = (st, b) := by
  simp [collisionStep, h]

/-- collisionStep with no other resolvable occupant is a no-op. -/
theorem collisionStep_skip {ids : List String} {st : List (ParticleState K)} {b : Bool}
    {pid : String} {cur : ParticleState K}
    (h : st.find? (fun p => decide (p.id = pid)) = some cur)
    (ho : othersOf ids st pid = []) :
    collisionStep ids (st, b) pid = (st, b) := by
  have ho' : (ids.filter (fun i => decide (i ≠ pid))).filterMap
      (fun i => st.find? (fun p => decide (p.id = i))) = ([] : List (ParticleState K)) := ho
  simp only [collisionStep, h]
  rw [ho']
  simp

/-- collisionStep with at least one other resolvable occupant rewrites the
first particle matching the participant id with the spec's collision update
of the resolved participant, and ORs the supernova flag with the saturation
test of the new energy. -/
theorem collisionStep_update {ids : List String} {st : List (ParticleState K)} {b : Bool}
    {pid : String} {cur : ParticleState K}
    (h : st.find? (fun p => decide (p.id = pid)) = some cur)
    (ho : othersOf ids st pid ≠ []) :
    collisionStep ids (st, b) pid
      = (updateFirst (fun q =>
            { q with
              harmonicFactor := (specCollisionUpdate cur (othersOf ids st pid)).harmonicFactor
              amplitude := (specCollisionUpdate cur (othersOf ids st pid)).amplitude
              energyLevel := (specCollisionUpdate cur (othersOf ids st pid)).energyLevel
              color := (specCollisionUpdate cur (othersOf ids st pid)).color }) pid st,
         b || decide ((1.0 : K) ≤ (specCollisionUpdate cur (othersOf ids st pid)).energyLevel)) := by
  have hlen : ¬ ((ids.filter (fun i => decide (i ≠ pid))).filterMap
      (fun i => st.find? (fun p => decide (p.id = i)))).length = 0 :=
    fun hc => ho (List.length_eq_zero.mp hc)
  simp only [collisionStep, h, specCollisionUpdate, resonanceFactorOf,
    amplitudeFactorOf, avgBaseOf, avgAmpOf, avgColorOf, othersOf]
  rw [if_neg hlen]
  rw [show ((FREQ_HI - FREQ_LO : ℤ) : K) = 899 from by norm_num [FREQ_LO, FREQ_HI]]

/-- Members of an index-aware map come from members of the source list. -/
theorem mem_mapIdx_particles {l : List (ParticleState K)} {f : ℕ → ParticleState K → ParticleState K}
    {b : ParticleState K} (h : b ∈ l.mapIdx f) : ∃ i p, p ∈ l ∧ b = f i p := by
  rw [List.mapIdx_eq_enum_map] at h
  obtain ⟨⟨i, p⟩, hm, rfl⟩ := List.mem_map.mp h
  exact ⟨i, p, List.snd_mem_of_mem_enum hm, rfl⟩

/-- The others' average amplitude is nonnegative when each amplitude is. -/
theorem avgAmpOf_nonneg {others : List (ParticleState K)}
    (h : ∀ q ∈ others, (0 : K) ≤ q.amplitude) : 0 ≤ avgAmpOf others := by
  unfold avgAmpOf
  apply div_nonneg
  · apply List.sum_nonneg
    intro x hx
    obtain ⟨q, hq, rfl⟩ := List.mem_map.mp hx
    exact h q hq
  · exact Nat.cast_nonneg _

/-- The amplitude factor is nonnegative when every amplitude is. -/
theorem amplitudeFactorOf_nonneg {cur : ParticleState K} {others : List (ParticleState K)}
    (hc : (0 : K) ≤ cur.amplitude) (h : ∀ q ∈ others, (0 : K) ≤ q.amplitude) :
    0 ≤ amplitudeFactorOf cur others := by
  unfold amplitudeFactorOf
  have := avgAmpOf_nonneg h
  linarith

/-- The harmonic increase is a product of nonnegative factors. -/
theorem harmonicIncrease_nonneg {cur : ParticleState K} {others : List (ParticleState K)}
    (hc : (0 : K) ≤ cur.amplitude) (h : ∀ q ∈ others, (0 : K) ≤ q.amplitude) :
    0 ≤ resonanceFactorOf cur others * amplitudeFactorOf cur others
        * (0.6 + (others.length : K) * 0.2) := by
  have h1 : (0 : K) ≤ resonanceFactorOf cur others := by
    unfold resonanceFactorOf
    positivity
  have h2 := amplitudeFactorOf_nonneg hc h
  have h3 : (0 : K) ≤ 0.6 + (others.length : K) * 0.2 := by positivity
  exact mul_nonneg (mul_nonneg h1 h2) h3

/-- Each of the three resonance-updated attributes does not decrease. -/
theorem specCollisionUpdate_mono {cur : ParticleState K} {others : List (ParticleState K)}
    (hcur : InBounds cur) (h : ∀ q ∈ others, InBounds q) :
    cur.harmonicFactor ≤ (specCollisionUpdate cur others).harmonicFactor
    ∧ cur.amplitude ≤ (specCollisionUpdate cur others).amplitude
    ∧ cur.energyLevel ≤ (specCollisionUpdate cur others).energyLevel := by
  obtain ⟨_, _, ha1, ha2, hh1, hh2, he1, he2⟩ := hcur
  have hampnn : ∀ q ∈ others, (0 : K) ≤ q.amplitude := by
    intro q hq
    have := (h q hq).2.2.1
    have h04 : (0 : K) ≤ DEFAULT_AMPLITUDE := by norm_num [DEFAULT_AMPLITUDE]
    linarith
  have hcampnn : (0 : K) ≤ cur.amplitude := by
    have h04 : (0 : K) ≤ DEFAULT_AMPLITUDE := by norm_num [DEFAULT_AMPLITUDE]
    linarith
  have hinc := harmonicIncrease_nonneg hcampnn hampnn
  have haf := amplitudeFactorOf_nonneg hcampnn hampnn
  have henn : (0 : K) ≤ 0.2 * (others.length : K) := by positivity
  refine ⟨?_, ?_, ?_⟩
  · simp only [specCollisionUpdate]
    rw [show (4.0 : K) = 4 from by norm_num]
    exact le_min hh2 (by linarith)
  · simp only [specCollisionUpdate]
    rw [show (1.0 : K) = 1 from by norm_num]
    have : (0 : K) ≤ amplitudeFactorOf cur others * 0.15 := by positivity
    exact le_min ha2 (by linarith)
  · simp only [specCollisionUpdate]
    rw [show (1.0 : K) = 1 from by norm_num]
    exact le_min he2 (by linarith)

/-- The collision assignment to any particle keeps it inside the published
bounds, provided the resolved participant and all other occupants are. -/
theorem collisionAssign_inBounds {cur q : ParticleState K} {others : List (ParticleState K)}
    (hcur : InBounds cur) (hq : InBounds q) (h : ∀ q' ∈ others, InBounds q') :
    InBounds { q with
      harmonicFactor := (specCollisionUpdate cur others).harmonicFactor
      amplitude := (specCollisionUpdate cur others).amplitude
      energyLevel := (specCollisionUpdate cur others).energyLevel
      color := (specCollisionUpdate cur others).color } := by
  obtain ⟨hl1, hl2, _, _, _, _, _, _⟩ := hq
  obtain ⟨_, _, ha1, ha2, hh1, hh2, he1, he2⟩ := hcur
  have hampnn : ∀ q' ∈ others, (0 : K) ≤ q'.amplitude := by
    intro q' hq'
    have := (h q' hq').2.2.1
    have h04 : (0 : K) ≤ DEFAULT_AMPLITUDE := by norm_num [DEFAULT_AMPLITUDE]
    linarith
  have hcampnn : (0 : K) ≤ cur.amplitude := by
    have h04 : (0 : K) ≤ DEFAULT_AMPLITUDE := by norm_num [DEFAULT_AMPLITUDE]
    linarith
  have hinc := harmonicIncrease_nonneg hcampnn hampnn
  have haf := amplitudeFactorOf_nonneg hcampnn hampnn
  have henn : (0 : K) ≤ 0.2 * (others.length : K) := by positivity
  have hafs : (0 : K) ≤ amplitudeFactorOf cur others * 0.15 := by positivity
  refine ⟨hl1, hl2, ?_, ?_, ?_, ?_, ?_, ?_⟩
  · simp only [specCollisionUpdate]
    rw [show (1.0 : K) = 1 from by norm_num]
    refine le_min ?_ (by linarith)
    norm_num [DEFAULT_AMPLITUDE]
  · simp only [specCollisionUpdate]
    rw [show (1.0 : K) = 1 from by norm_num]
    exact min_le_left _ _
  · simp only [specCollisionUpdate]
    rw [show (4.0 : K) = 4 from by norm_num]
    exact le_min (by norm_num) (by linarith)
  · simp only [specCollisionUpdate]
    rw [show (4.0 : K) = 4 from by norm_num]
    exact min_le_left _ _
  · simp only [specCollisionUpdate]
    rw [show (1.0 : K) = 1 from by norm_num]
    exact le_min (by norm_num) (by linarith)
  · simp only [specCollisionUpdate]
    rw [show (1.0 : K) = 1 from by norm_num]
    exact min_le_left _ _

/-- One collision iteration preserves the store bounds. -/
theorem collisionStep_storeInv {ids : List String} {st : List (ParticleState K)} {b : Bool}
    {pid : String} (h : StoreInv st) : StoreInv (collisionStep ids (st, b) pid).1 := by
  cases hf : st.find? (fun p => decide (p.id = pid)) with
  | none => rw [collisionStep_none hf]; exact h
  | some cur =>
    by_cases ho : othersOf ids st pid = []
    · rw [collisionStep_skip hf ho]; exact h
    · rw [collisionStep_update hf ho]
      intro q' hq'
      rcases mem_updateFirst hq' with hq' | ⟨q, hq, rfl⟩
      · exact h q' hq'
      · exact collisionAssign_inBounds (h cur (List.mem_of_find?_eq_some hf)) (h q hq)
          (fun q2 hq2 => h q2 (mem_othersOf hq2))

/-- The whole collision fold preserves the store bounds. -/
theorem collisionFold_aux_storeInv (ids0 : List String) :
    ∀ (l : List String) (st : List (ParticleState K)) (b : Bool),
      StoreInv st → StoreInv (l.foldl (collisionStep ids0) (st, b)).1 := by
  intro l
  induction l with
  | nil => intro st b h; exact h
  | cons i rest IH =>
    intro st b h
    rw [List.foldl_cons]
    exact IH _ _ (collisionStep_storeInv h)

/-- collisionFold preserves the store bounds. -/
theorem collisionFold_storeInv {ids : List String} {st : List (ParticleState K)}
    (h : StoreInv st) : StoreInv (collisionFold ids st).1 :=
  collisionFold_aux_storeInv ids ids st false h

/-- Drift and decay keep every attribute inside its published bounds. -/
theorem driftOne_inBounds {nodes : List (IntersectionNode K)} {omega : Vec3 K} {r : K}
    {p : ParticleState K} (h : InBounds p) : InBounds (driftOne nodes omega r p) := by
  obtain ⟨_, _, ha1, ha2, hh1, hh2, he1, he2⟩ := h
  simp only [driftOne]
  have h04 : (0 : K) ≤ DEFAULT_AMPLITUDE := by norm_num [DEFAULT_AMPLITUDE]
  refine ⟨le_max_left _ _, ?_, le_max_left _ _, ?_, ?_, ?_, ?_, ?_⟩
  · exact max_le (by norm_num) (min_le_left _ _)
  · exact max_le (by norm_num [DEFAULT_AMPLITUDE]) (by linarith)
  · exact le_trans (by norm_num) (le_max_left (1.0 : K) _)
  · exact max_le (by norm_num) (by linarith)
  · exact le_max_left _ _
  · exact max_le (by norm_num) (by linarith)

/-- Target reassignment changes no bounded attribute. -/
theorem assignTargetOf_inBounds {nodes : List (IntersectionNode K)} {p : ParticleState K}
    (h : InBounds p) : InBounds (assignTargetOf nodes p) := by
  unfold assignTargetOf
  cases findNearestNode nodes p.locationalFrequency with
  | none => exact h
  | some t => exact h

/-- The particle list coming out of one node's processing is either
untouched or the result of the collision fold on the incoming list. -/
theorem processNode_state_cases (ops : FloatOps K) (nodes : List (IntersectionNode K)) (now : K)
    (acc : PhaseAcc K) (entry : (ℤ × ℤ × ℤ) × List String) :
    (processNode ops nodes now acc entry).state = acc.state
    ∨ ∃ cIds, (processNode ops nodes now acc entry).state = (collisionFold cIds acc.state).1 := by
  unfold processNode
  cases hn : nodes.find? (fun n => decide (n.id = entry.1)) with
  | none => exact Or.inl rfl
  | some node =>
    simp only
    split_ifs
    all_goals first
      | exact Or.inl rfl
      | (right; exact ⟨_, rfl⟩)

/-- One node's torque/collision/supernova processing preserves the store
bounds. -/
theorem processNode_storeInv {ops : FloatOps K} {nodes : List (IntersectionNode K)} {now : K}
    {acc : PhaseAcc K} {entry : (ℤ × ℤ × ℤ) × List String}
    (h : StoreInv acc.state) : StoreInv (processNode ops nodes now acc entry).state := by
  rcases processNode_state_cases ops nodes now acc entry with he | ⟨cIds, he⟩
  · rw [he]; exact h
  · rw [he]; exact collisionFold_storeInv h

/-- The whole occupancy fold preserves the store bounds. -/
theorem processNodes_storeInv {ops : FloatOps K} {nodes : List (IntersectionNode K)} {now : K} :
    ∀ (entries : List ((ℤ × ℤ × ℤ) × List String)) (acc : PhaseAcc K),
      StoreInv acc.state → StoreInv (entries.foldl (processNode ops nodes now) acc).state := by
  intro entries
  induction entries with
  | nil => intro acc h; exact h
  | cons e rest IH =>
    intro acc h
    rw [List.foldl_cons]
    exact IH _ (processNode_storeInv h)

/-- updateFirst with an id-preserving update leaves the id sequence of the
list unchanged. -/
theorem updateFirst_map_id {f : ParticleState K → ParticleState K}
    (hf : ∀ q, (f q).id = q.id) (pid : String) :
    ∀ st : List (ParticleState K),
      (updateFirst f pid st).map (fun p => p.id) = st.map (fun p => p.id) := by
  intro st
  induction st with
  | nil => rfl
  | cons p rest IH =>
    unfold updateFirst
    by_cases hid : p.id = pid
    · rw [if_pos hid]
      simp [hf]
    · rw [if_neg hid]
      simp [IH]

/-- An id present in the id sequence is found by `find?`. -/
theorem find?_of_id_mem {st : List (ParticleState K)} {pid : String}
    (h : pid ∈ st.map (fun p => p.id)) :
    ∃ q, st.find? (fun p => decide (p.id = pid)) = some q := by
  induction st with
  | nil => simp at h
  | cons p rest IH =>
    by_cases hid : p.id = pid
    · exact ⟨p, by simp [List.find?, hid]⟩
    · have h2 : pid ∈ rest.map (fun p => p.id) := by
        simp only [List.map_cons, List.mem_cons] at h
        rcases h with h | h
        · exact absurd h.symm hid
        · exact h
      obtain ⟨q, hq⟩ := IH h2
      exact ⟨q, by simp [List.find?, hid, hq]⟩

/-- After updating the first particle with a given id, looking that id up
finds the updated particle (the update must preserve the id). -/
theorem find?_updateFirst_self {f : ParticleState K → ParticleState K} {pid : String}
    {q : ParticleState K} (hf : ∀ r, (f r).id = r.id) :
    ∀ {st : List (ParticleState K)},
      st.find? (fun p => decide (p.id = pid)) = some q →
      (updateFirst f pid st).find? (fun p => decide (p.id = pid)) = some (f q) := by
  intro st
  induction st with
  | nil => intro h; simp at h
  | cons p rest IH =>
    intro h
    by_cases hid : p.id = pid
    · rw [List.find?_cons_of_pos _ (by simp [hid])] at h
      have hq : q = p := by simpa using h.symm
      subst hq
      unfold updateFirst
      rw [if_pos hid]
      rw [List.find?_cons_of_pos _ (by simp [hf, hid])]
    · rw [List.find?_cons_of_neg _ (by simp [hid])] at h
      unfold updateFirst
      rw [if_neg hid]
      rw [List.find?_cons_of_neg _ (by simp [hid])]
      exact IH h

/-- Updating the first particle with one id does not change the lookup of a
different id. -/
theorem find?_updateFirst_ne {f : ParticleState K → ParticleState K} {pid pid' : String}
    (hf : ∀ r, (f r).id = r.id) (hne : pid' ≠ pid) :
    ∀ st : List (ParticleState K),
      (updateFirst f pid st).find? (fun p => decide (p.id = pid'))
        = st.find? (fun p => decide (p.id = pid')) := by
  intro st
  induction st with
  | nil => rfl
  | cons p rest IH =>
    unfold updateFirst
    by_cases hid : p.id = pid
    · rw [if_pos hid]
      have hne2 : ¬ (f p).id = pid' := by
        rw [hf, hid]
        exact fun hc => hne hc.symm
      have hne3 : ¬ p.id = pid' := by
        rw [hid]
        exact fun hc => hne hc.symm
      rw [List.find?_cons_of_neg _ (by simp [hne2]), List.find?_cons_of_neg _ (by simp [hne3])]
    · rw [if_neg hid]
      by_cases hid' : p.id = pid'
      · rw [List.find?_cons_of_pos _ (by simp [hid']), List.find?_cons_of_pos _ (by simp [hid'])]
      · rw [List.find?_cons_of_neg _ (by simp [hid']), List.find?_cons_of_neg _ (by simp [hid'])]
        exact IH

/-- One collision iteration leaves the id sequence of the store unchanged. -/
theorem collisionStep_fst_map_id {ids : List String} {st : List (ParticleState K)} {b : Bool}
    {pid : String} :
    ((collisionStep ids (st, b) pid).1).map (fun p => p.id) = st.map (fun p => p.id) := by
  cases hf : st.find? (fun p => decide (p.id = pid)) with
  | none => rw [collisionStep_none hf]
  | some cur =>
    by_cases ho : othersOf ids st pid = []
    · rw [collisionStep_skip hf ho]
    · rw [collisionStep_update hf ho]
      apply updateFirst_map_id
      intro q
      rfl

/-- The state component of a collision iteration does not depend on the
supernova flag. -/
theorem collisionStep_fst_bool_indep {ids : List String} {st : List (ParticleState K)}
    {b b' : Bool} {pid : String} :
    (collisionStep ids (st, b) pid).1 = (collisionStep ids (st, b') pid).1 := by
  cases hf : st.find? (fun p => decide (p.id = pid)) with
  | none => rw [collisionStep_none hf, collisionStep_none hf]
  | some cur =>
    by_cases ho : othersOf ids st pid = []
    · rw [collisionStep_skip hf ho, collisionStep_skip hf ho]
    · rw [collisionStep_update hf ho, collisionStep_update hf ho]

/-- The prefix fold over the collision ids preserves the id sequence. -/
theorem collisionFoldAux_map_id {ids0 : List String} :
    ∀ (l : List String) (st : List (ParticleState K)) (b : Bool),
      ((l.foldl (collisionStep ids0) (st, b)).1).map (fun p => p.id)
        = st.map (fun p => p.id) := by
  intro l
  induction l with
  | nil => intro st b; rfl
  | cons i rest IH =>
    intro st b
    rw [List.foldl_cons]
    have h2 := IH (collisionStep ids0 (st, b) i).1 (collisionStep ids0 (st, b) i).2
    rw [← @collisionStep_fst_map_id K _ _ ids0 st b i]
    exact h2

/-- Peeling the last element off a prefix fold. -/
theorem foldl_take_succ {α β : Type} (f : β → α → β) (l : List α) (k : ℕ) (hk : k < l.length)
    (init : β) :
    (l.take (k + 1)).foldl f init = f ((l.take k).foldl f init) (l.get ⟨k, hk⟩) := by
  rw [List.take_succ]
  have hget : l[k]? = some (l.get ⟨k, hk⟩) := by
    rw [List.getElem?_eq_getElem hk]
    rfl
  rw [hget]
  rw [show (some (l.get ⟨k, hk⟩)).toList = [l.get ⟨k, hk⟩] from rfl]
  rw [List.foldl_append]
  rfl

/-- Removing one occurrence from a duplicate-free list by filtering
decreases the length by exactly one. -/
theorem filter_ne_length {a : String} :
    ∀ {l : List String}, l.Nodup → a ∈ l →
      (l.filter (fun i => decide (i ≠ a))).length = l.length - 1 := by
  intro l
  induction l with
  | nil => intro _ h; simp at h
  | cons x xs IH =>
    intro hnd hmem
    rcases List.mem_cons.mp hmem with rfl | hmem2
    · have hx : ∀ y ∈ xs, y ≠ a := fun y hy hc => (List.nodup_cons.mp hnd).1 (hc ▸ hy)
      rw [List.filter_cons_of_neg (by simp)]
      rw [List.filter_eq_self.mpr (fun y hy => by simpa using hx y hy)]
      simp
    · have hxa : x ≠ a := fun hc => (List.nodup_cons.mp hnd).1 (hc ▸ hmem2)
      rw [List.filter_cons_of_pos (by simpa using hxa)]
      have := IH (List.nodup_cons.mp hnd).2 hmem2
      have hlen : 0 < xs.length := List.length_pos_of_mem hmem2
      simp only [List.length_cons, this]
      omega

/-- A filterMap whose function succeeds everywhere keeps the length. -/
theorem filterMap_length_all {α β : Type} (f : α → Option β) :
    ∀ l : List α, (∀ x ∈ l, (f x).isSome) → (l.filterMap f).length = l.length := by
  intro l
  induction l with
  | nil => intro _; rfl
  | cons x xs IH =>
    intro h
    have hx := h x (List.mem_cons_self x xs)
    obtain ⟨y, hy⟩ := Option.isSome_iff_exists.mp hx
    rw [List.filterMap_cons, hy]
    simp only [List.length_cons]
    rw [IH (fun z hz => h z (List.mem_cons_of_mem x hz))]

/-- In a store containing every colliding id, a participant sees exactly
`numOccupants - 1` other occupants. -/
theorem othersOf_length {ids : List String} {st : List (ParticleState K)} {pid : String}
    (hnd : ids.Nodup) (hpid : pid ∈ ids)
    (hsub : ∀ i ∈ ids, i ∈ st.map (fun p => p.id)) :
    (othersOf ids st pid).length = ids.length - 1 := by
  unfold othersOf
  rw [filterMap_length_all]
  · exact filter_ne_length hnd hpid
  · intro i hi
    obtain ⟨q, hq⟩ := find?_of_id_mem (hsub i (List.mem_of_mem_filter hi))
    simp [hq]

/-- Across any run of collision iterations, the particle holding a given id
never loses harmonic factor, amplitude, or energy (each iteration adds a
nonnegative increment and caps). -/
theorem collisionFold_mono_aux {ids0 : List String} :
    ∀ (l : List String) (st : List (ParticleState K)) (b : Bool) (pid : String)
      (q : ParticleState K),
      StoreInv st →
      st.find? (fun p => decide (p.id = pid)) = some q →
      ∃ q', ((l.foldl (collisionStep ids0) (st, b)).1).find?
            (fun p => decide (p.id = pid)) = some q'
        ∧ q.harmonicFactor ≤ q'.harmonicFactor ∧ q.amplitude ≤ q'.amplitude
        ∧ q.energyLevel ≤ q'.energyLevel := by
  intro l
  induction l with
  | nil =>
    intro st b pid q hinv hfind
    exact ⟨q, hfind, le_refl _, le_refl _, le_refl _⟩
  | cons i rest IH =>
    intro st b pid q hinv hfind
    rw [List.foldl_cons]
    cases hf : st.find? (fun p => decide (p.id = i)) with
    | none =>
      rw [collisionStep_none hf]
      exact IH st b pid q hinv hfind
    | some cur =>
      by_cases ho : othersOf ids0 st i = []
      · rw [collisionStep_skip hf ho]
        exact IH st b pid q hinv hfind
      · rw [collisionStep_update hf ho]
        have hidf : ∀ r : ParticleState K,
            (({ r with
                harmonicFactor := (specCollisionUpdate cur (othersOf ids0 st i)).harmonicFactor
                amplitude := (specCollisionUpdate cur (othersOf ids0 st i)).amplitude
                energyLevel := (specCollisionUpdate cur (othersOf ids0 st i)).energyLevel
                color := (specCollisionUpdate cur (othersOf ids0 st i)).color } :
              ParticleState K)).id = r.id := fun r => rfl
        have hcurb : InBounds cur := hinv cur (List.mem_of_find?_eq_some hf)
        have hob : ∀ a ∈ othersOf ids0 st i, InBounds a :=
          fun a ha => hinv a (mem_othersOf ha)
        have hinv2 : StoreInv (updateFirst (fun r =>
            { r with
              harmonicFactor := (specCollisionUpdate cur (othersOf ids0 st i)).harmonicFactor
              amplitude := (specCollisionUpdate cur (othersOf ids0 st i)).amplitude
              energyLevel := (specCollisionUpdate cur (othersOf ids0 st i)).energyLevel
              color := (specCollisionUpdate cur (othersOf ids0 st i)).color }) i st) := by
          intro r hr
          rcases mem_updateFirst hr with hr2 | ⟨r0, hr0, rfl⟩
          · exact hinv r hr2
          · exact collisionAssign_inBounds hcurb (hinv r0 hr0) hob
        by_cases hpi : pid = i
        · subst hpi
          have hqc : cur = q := by
            rw [hfind] at hf
            exact (Option.some.injEq _ _).mp hf.symm
          have hfind2 := find?_updateFirst_self hidf hfind
          obtain ⟨q', hq', h1, h2, h3⟩ := IH _ _ pid _ hinv2 hfind2
          have hmono := specCollisionUpdate_mono hcurb hob
          subst hqc
          exact ⟨q', hq', le_trans hmono.1 h1, le_trans hmono.2.1 h2,
            le_trans hmono.2.2 h3⟩
        · have hfind2 : (updateFirst (fun r =>
              { r with
                harmonicFactor := (specCollisionUpdate cur (othersOf ids0 st i)).harmonicFactor
                amplitude := (specCollisionUpdate cur (othersOf ids0 st i)).amplitude
                energyLevel := (specCollisionUpdate cur (othersOf ids0 st i)).energyLevel
                color := (specCollisionUpdate cur (othersOf ids0 st i)).color }) i st).find?
              (fun p => decide (p.id = pid)) = some q := by
            rw [find?_updateFirst_ne hidf hpi]
            exact hfind
          exact IH _ _ pid _ hinv2 hfind2

/-- When every occupant id is resolvable, the colliding ids are exactly the
occupant ids. -/
theorem collidingIdsOf_eq {st : List (ParticleState K)} :
    ∀ {pIds : List String}, (∀ i ∈ pIds, i ∈ st.map (fun p => p.id)) →
      collidingIdsOf st pIds = pIds := by
  intro pIds
  induction pIds with
  | nil => intro _; rfl
  | cons i rest IH =>
    intro h
    obtain ⟨q, hq⟩ := find?_of_id_mem (h i (List.mem_cons_self i rest))
    have hqid : q.id = i := by
      have := List.find?_some hq
      simpa using this
    unfold collidingIdsOf
    rw [List.filterMap_cons, hq]
    simp only [List.map_cons, hqid]
    rw [show (rest.filterMap (fun pid => st.find? (fun p => decide (p.id = pid)))).map
        (fun p => p.id) = collidingIdsOf st rest from rfl]
    rw [IH (fun j hj => h j (List.mem_cons_of_mem i hj))]

/-- A true supernova flag survives the rest of the collision fold. -/
theorem collisionFoldAux_flag_mono {ids0 : List String} :
    ∀ (l : List String) (st : List (ParticleState K)),
      (l.foldl (collisionStep ids0) (st, true)).2 = true := by
  intro l
  induction l with
  | nil => intro st; rfl
  | cons i rest IH =>
    intro st
    rw [List.foldl_cons]
    cases hf : st.find? (fun p => decide (p.id = i)) with
    | none =>
      rw [collisionStep_none hf]
      exact IH st
    | some cur =>
      by_cases ho : othersOf ids0 st i = []
      · rw [collisionStep_skip hf ho]
        exact IH st
      · rw [collisionStep_update hf ho]
        have hpair : (updateFirst (fun q =>
            { q with
              harmonicFactor := (specCollisionUpdate cur (othersOf ids0 st i)).harmonicFactor
              amplitude := (specCollisionUpdate cur (othersOf ids0 st i)).amplitude
              energyLevel := (specCollisionUpdate cur (othersOf ids0 st i)).energyLevel
              color := (specCollisionUpdate cur (othersOf ids0 st i)).color }) i st,
            (true || decide ((1.0 : K) ≤ (specCollisionUpdate cur (othersOf ids0 st i)).energyLevel)))
            = (updateFirst (fun q =>
            { q with
              harmonicFactor := (specCollisionUpdate cur (othersOf ids0 st i)).harmonicFactor
              amplitude := (specCollisionUpdate cur (othersOf ids0 st i)).amplitude
              energyLevel := (specCollisionUpdate cur (othersOf ids0 st i)).energyLevel
              color := (specCollisionUpdate cur (othersOf ids0 st i)).color }) i st, true) := by
          rw [Bool.true_or]
        rw [hpair]
        exact IH _

/-- Collision iterations for ids other than `pid` never change what looking
up `pid` returns. -/
theorem collisionFoldAux_find_untouched {ids0 : List String} :
    ∀ (l : List String) (st : List (ParticleState K)) (b : Bool) (pid : String),
      pid ∉ l →
      ((l.foldl (collisionStep ids0) (st, b)).1).find? (fun p => decide (p.id = pid))
        = st.find? (fun p => decide (p.id = pid)) := by
  intro l
  induction l with
  | nil => intro st b pid _; rfl
  | cons i rest IH =>
    intro st b pid hmem
    have hne : pid ≠ i := fun hc => hmem (hc ▸ List.mem_cons_self i rest)
    have hrest : pid ∉ rest := fun hc => hmem (List.mem_cons_of_mem i hc)
    rw [List.foldl_cons]
    cases hf : st.find? (fun p => decide (p.id = i)) with
    | none =>
      rw [collisionStep_none hf]
      exact IH st b pid hrest
    | some cur =>
      by_cases ho : othersOf ids0 st i = []
      · rw [collisionStep_skip hf ho]
        exact IH st b pid hrest
      · rw [collisionStep_update hf ho]
        have hidf : ∀ r : ParticleState K,
            (({ r with
                harmonicFactor := (specCollisionUpdate cur (othersOf ids0 st i)).harmonicFactor
                amplitude := (specCollisionUpdate cur (othersOf ids0 st i)).amplitude
                energyLevel := (specCollisionUpdate cur (othersOf ids0 st i)).energyLevel
                color := (specCollisionUpdate cur (othersOf ids0 st i)).color } :
              ParticleState K)).id = r.id := fun r => rfl
        rw [IH _ _ pid hrest]
        exact find?_updateFirst_ne hidf hne st

/-- The per-entry effect of the occupancy loop on the event channels, the
removal marks and the explosion counter: one collision event exactly when
the node exists and holds two or more occupants, and — exactly when the
collision triggers — one supernova event at the node's position, all
occupants marked for removal, and one more deferred replacement spawn. -/
theorem processNode_effects (ops : FloatOps K) (nodes : List (IntersectionNode K)) (now : K)
    (acc : PhaseAcc K) (entry : (ℤ × ℤ × ℤ) × List String) :
    (processNode ops nodes now acc entry).collisions
      = acc.collisions
        ++ (if (nodes.find? (fun n => decide (n.id = entry.1))).isSome ∧ 1 < entry.2.length
            then [{ id := (entry.1, now), nodeId := entry.1, particleIds := entry.2,
                    timestamp := now }] else [])
    ∧ (processNode ops nodes now acc entry).supernovas
      = acc.supernovas
        ++ (if nodeTriggered nodes acc.state entry then snEventOf nodes now entry else [])
    ∧ (processNode ops nodes now acc entry).toRemove
      = acc.toRemove ++ (if nodeTriggered nodes acc.state entry then entry.2 else [])
    ∧ (processNode ops nodes now acc entry).explosions
      = acc.explosions + (if nodeTriggered nodes acc.state entry then 1 else 0) := by
  unfold processNode nodeTriggered snEventOf collidingIdsOf
  cases hn : nodes.find? (fun n => decide (n.id = entry.1)) with
  | none => simp
  | some node =>
    by_cases hc : node.isCorner
    all_goals simp only [hc, if_true, if_false, Option.isSome_some, true_and, Bool.false_eq_true]
    all_goals by_cases hlen : 1 < entry.2.length
    all_goals simp only [hlen, if_true, if_false, ite_true, ite_false]
    all_goals try simp
    all_goals by_cases hcl : 1 < (entry.2.filterMap
        (fun pid => acc.state.find? (fun p => decide (p.id = pid)))).length
    all_goals by_cases hfl : (collisionFold
        ((entry.2.filterMap (fun pid => acc.state.find? (fun p => decide (p.id = pid)))).map
          (fun p => p.id)) acc.state).2 = true
    all_goals simp [hcl, hfl]

/-- Per-iteration characterization of the collision fold: with pairwise
distinct, resolvable occupant ids, iteration k resolves occupant k against
the state left by the earlier iterations, sees exactly one fewer other
occupant than the occupancy size, replaces that occupant with the spec's
collision update, and leaves every other id's particle untouched. -/
theorem collisionFold_step_char (ids : List String) (st : List (ParticleState K))
    (hnd : ids.Nodup) (hlen : 2 ≤ ids.length)
    (hsub : ∀ i ∈ ids, i ∈ st.map (fun p => p.id)) (hinv : StoreInv st) :
    ∀ k (hk : k < ids.length),
      ∃ cur,
        (((ids.take k).foldl (collisionStep ids) (st, false)).1).find?
            (fun p => decide (p.id = ids.get ⟨k, hk⟩)) = some cur
        ∧ (othersOf ids (((ids.take k).foldl (collisionStep ids) (st, false)).1)
            (ids.get ⟨k, hk⟩)).length = ids.length - 1
        ∧ (((ids.take (k + 1)).foldl (collisionStep ids) (st, false)).1).find?
            (fun p => decide (p.id = ids.get ⟨k, hk⟩))
          = some (specCollisionUpdate cur
              (othersOf ids (((ids.take k).foldl (collisionStep ids) (st, false)).1)
                (ids.get ⟨k, hk⟩)))
        ∧ (∀ pid', pid' ≠ ids.get ⟨k, hk⟩ →
            (((ids.take (k + 1)).foldl (collisionStep ids) (st, false)).1).find?
                (fun p => decide (p.id = pid'))
              = (((ids.take k).foldl (collisionStep ids) (st, false)).1).find?
                (fun p => decide (p.id = pid'))) := by
  intro k hk
  set stk := ((ids.take k).foldl (collisionStep ids) (st, false)).1 with hstk
  set pid := ids.get ⟨k, hk⟩ with hpid
  have hmapid : stk.map (fun p => p.id) = st.map (fun p => p.id) :=
    collisionFoldAux_map_id (ids.take k) st false
  have hpidmem : pid ∈ ids := List.get_mem ids k hk
  have hsubk : ∀ i ∈ ids, i ∈ stk.map (fun p => p.id) := by
    intro i hi
    rw [hmapid]
    exact hsub i hi
  obtain ⟨cur, hcur⟩ := find?_of_id_mem (hsubk pid hpidmem)
  have holen : (othersOf ids stk pid).length = ids.length - 1 :=
    othersOf_length hnd hpidmem hsubk
  have ho : othersOf ids stk pid ≠ [] := by
    intro hc
    rw [hc] at holen
    simp at holen
    omega
  have hstep : ((ids.take (k + 1)).foldl (collisionStep ids) (st, false)).1
      = (collisionStep ids (stk, ((ids.take k).foldl (collisionStep ids) (st, false)).2)
          pid).1 := by
    rw [foldl_take_succ (collisionStep ids) ids k hk (st, false)]
  have hupd := collisionStep_update
    (b := ((ids.take k).foldl (collisionStep ids) (st, false)).2) hcur ho
  have hidf : ∀ r : ParticleState K,
      (({ r with
          harmonicFactor := (specCollisionUpdate cur (othersOf ids stk pid)).harmonicFactor
          amplitude := (specCollisionUpdate cur (othersOf ids stk pid)).amplitude
          energyLevel := (specCollisionUpdate cur (othersOf ids stk pid)).energyLevel
          color := (specCollisionUpdate cur (othersOf ids stk pid)).color } :
        ParticleState K)).id = r.id := fun r => rfl
  refine ⟨cur, hcur, holen, ?_, ?_⟩
  · rw [hstep, hupd]
    have hres := find?_updateFirst_self hidf hcur
    exact hres
  · intro pid' hne
    rw [hstep, hupd]
    exact find?_updateFirst_ne hidf hne stk

/-- One node's processing preserves the id sequence of the store (removal is
deferred to after the whole loop). -/
theorem processNode_map_id (ops : FloatOps K) (nodes : List (IntersectionNode K)) (now : K)
    (acc : PhaseAcc K) (entry : (ℤ × ℤ × ℤ) × List String) :
    (processNode ops nodes now acc entry).state.map (fun p => p.id)
      = acc.state.map (fun p => p.id) := by
  rcases processNode_state_cases ops nodes now acc entry with he | ⟨cIds, he⟩
  · rw [he]
  · rw [he]
    exact collisionFoldAux_map_id cIds acc.state false

/-- Fold-level characterization of the occupancy loop: the supernova events,
removal marks and explosion count accumulate exactly per triggered entry,
and the particle id sequence is untouched by the whole loop. -/
theorem processNodes_effects (ops : FloatOps K) (nodes : List (IntersectionNode K)) (now : K) :
    ∀ (entries : List ((ℤ × ℤ × ℤ) × List String)) (acc : PhaseAcc K),
      (entries.foldl (processNode ops nodes now) acc).supernovas
        = acc.supernovas ++ supernovasOf ops nodes now acc entries
      ∧ (entries.foldl (processNode ops nodes now) acc).toRemove
        = acc.toRemove ++ removalsOf ops nodes now acc entries
      ∧ (entries.foldl (processNode ops nodes now) acc).explosions
        = acc.explosions + (triggeredFlags ops nodes now acc entries).count true
      ∧ (entries.foldl (processNode ops nodes now) acc).state.map (fun p => p.id)
        = acc.state.map (fun p => p.id) := by
  intro entries
  induction entries with
  | nil =>
    intro acc
    simp [supernovasOf, removalsOf, triggeredFlags]
  | cons e rest IH =>
    intro acc
    rw [List.foldl_cons]
    obtain ⟨h1, h2, h3, h4⟩ := IH (processNode ops nodes now acc e)
    obtain ⟨_, g2, g3, g4⟩ := processNode_effects ops nodes now acc e
    refine ⟨?_, ?_, ?_, ?_⟩
    · rw [h1, g2, supernovasOf, List.append_assoc]
    · rw [h2, g3, removalsOf, List.append_assoc]
    · rw [h3, g4, triggeredFlags]
      by_cases hfl : nodeTriggered nodes acc.state e = true
      · simp [hfl, List.count_cons]
        omega
      · simp only [Bool.not_eq_true] at hfl
        simp [hfl, List.count_cons]
    · rw [h4, processNode_map_id]

/-- In a duplicate-free list, the k-th element does not reappear past
position k. -/
theorem get_not_mem_drop {l : List String} (hnd : l.Nodup) (k : ℕ) (hk : k < l.length) :
    l.get ⟨k, hk⟩ ∉ l.drop (k + 1) := by
  intro hc
  obtain ⟨j, hj, he⟩ := List.mem_iff_getElem.mp hc
  rw [List.getElem_drop] at he
  have hjk : k + 1 + j < l.length := by
    rw [List.length_drop] at hj
    omega
  have hfin : (⟨k + 1 + j, hjk⟩ : Fin l.length) = ⟨k, hk⟩ :=
    (List.Nodup.get_inj_iff hnd).mp
      (by rw [show l.get ⟨k + 1 + j, hjk⟩ = l[k + 1 + j] from rfl, he])
  have : k + 1 + j = k := by simpa using hfin
  omega

/-- With at least five other occupants, the collision update saturates the
energy at the 1.0 cap. -/
theorem specCollisionUpdate_energy_sat {cur : ParticleState K} {others : List (ParticleState K)}
    (he : (0.1 : K) ≤ cur.energyLevel) (hlen : 5 ≤ others.length) :
    (specCollisionUpdate cur others).energyLevel = 1 := by
  simp only [specCollisionUpdate]
  rw [show (1.0 : K) = 1 from by norm_num]
  apply min_eq_left
  have hc : (5 : K) ≤ (others.length : K) := by exact_mod_cast hlen
  nlinarith

/-- In a collision of six or more occupants, every occupant's energy ends at
the 1.0 cap: the per-participant increase `0.2 * (n-1)` is at least 1. -/
theorem collisionFold_energy_sat (ids : List String) (st : List (ParticleState K))
    (hnd : ids.Nodup) (hlen : 6 ≤ ids.length)
    (hsub : ∀ i ∈ ids, i ∈ st.map (fun p => p.id)) (hinv : StoreInv st) :
    ∀ pid ∈ ids, ∃ q',
      ((collisionFold ids st).1).find? (fun p => decide (p.id = pid)) = some q'
        ∧ q'.energyLevel = 1 := by
  intro pid hpid
  obtain ⟨⟨k, hk⟩, hget⟩ := List.mem_iff_get.mp hpid
  subst hget
  obtain ⟨cur, hcur, holen, hkupd, _⟩ :=
    collisionFold_step_char ids st hnd (by omega) hsub hinv k hk
  have hcurInB : InBounds cur :=
    (collisionFold_aux_storeInv ids (ids.take k) st false hinv) cur
      (List.mem_of_find?_eq_some hcur)
  have hsat : (specCollisionUpdate cur
      (othersOf ids (((ids.take k).foldl (collisionStep ids) (st, false)).1)
        (ids.get ⟨k, hk⟩))).energyLevel = 1 := by
    apply specCollisionUpdate_energy_sat hcurInB.2.2.2.2.2.2.1
    rw [holen]
    omega
  have hnot : ids.get ⟨k, hk⟩ ∉ ids.drop (k + 1) := get_not_mem_drop hnd k hk
  have hfold : collisionFold ids st
      = (ids.drop (k + 1)).foldl (collisionStep ids)
          ((ids.take (k + 1)).foldl (collisionStep ids) (st, false)) := by
    unfold collisionFold
    nth_rewrite 2 [← List.take_append_drop (k + 1) ids]
    rw [List.foldl_append]
  have hfinal : ((collisionFold ids st).1).find?
        (fun p => decide (p.id = ids.get ⟨k, hk⟩))
      = (((ids.take (k + 1)).foldl (collisionStep ids) (st, false)).1).find?
        (fun p => decide (p.id = ids.get ⟨k, hk⟩)) := by
    rw [hfold]
    exact collisionFoldAux_find_untouched (ids.drop (k + 1)) _ _ _ hnot
  refine ⟨_, ?_, hsat⟩
  rw [hfinal]
  exact hkupd

/-- In a collision of six or more resolvable occupants the supernova flag is
set unconditionally. -/
theorem collisionFold_flag_sat (ids : List String) (st : List (ParticleState K))
    (hnd : ids.Nodup) (hlen : 6 ≤ ids.length)
    (hsub : ∀ i ∈ ids, i ∈ st.map (fun p => p.id)) (hinv : StoreInv st) :
    (collisionFold ids st).2 = true := by
  cases ids with
  | nil => simp at hlen
  | cons i0 tl =>
    have hi0 : i0 ∈ i0 :: tl := List.mem_cons_self i0 tl
    obtain ⟨cur, hcur⟩ := find?_of_id_mem (hsub i0 hi0)
    have holen : (othersOf (i0 :: tl) st i0).length = (i0 :: tl).length - 1 :=
      othersOf_length hnd hi0 hsub
    have ho : othersOf (i0 :: tl) st i0 ≠ [] := by
      intro hc
      rw [hc] at holen
      simp only [List.length_nil, List.length_cons] at holen
      simp only [List.length_cons] at hlen
      omega
    unfold collisionFold
    rw [List.foldl_cons, collisionStep_update hcur ho]
    have hE : (specCollisionUpdate cur (othersOf (i0 :: tl) st i0)).energyLevel = 1 := by
      apply specCollisionUpdate_energy_sat
        ((hinv cur (List.mem_of_find?_eq_some hcur)).2.2.2.2.2.2.1)
      rw [holen]
      simp only [List.length_cons]
      simp only [List.length_cons] at hlen
      omega
    have hb : (false || decide ((1.0 : K)
        ≤ (specCollisionUpdate cur (othersOf (i0 :: tl) st i0)).energyLevel)) = true := by
      rw [Bool.false_or, decide_eq_true_eq, hE]
      norm_num
    rw [hb]
    exact collisionFoldAux_flag_mono tl _

/-- A triggering node exists in the node collection. -/
theorem nodeTriggered_isSome {nodes : List (IntersectionNode K)} {st : List (ParticleState K)}
    {entry : (ℤ × ℤ × ℤ) × List String} (h : nodeTriggered nodes st entry = true) :
    (nodes.find? (fun n => decide (n.id = entry.1))).isSome = true := by
  unfold nodeTriggered at h
  cases hn : nodes.find? (fun n => decide (n.id = entry.1)) with
  | none => rw [hn] at h; simp at h
  | some node => rfl

/-- Exactly one supernova event is collected per triggered entry. -/
theorem supernovasOf_length (ops : FloatOps K) (nodes : List (IntersectionNode K)) (now : K) :
    ∀ (entries : List ((ℤ × ℤ × ℤ) × List String)) (acc : PhaseAcc K),
      (supernovasOf ops nodes now acc entries).length
        = (triggeredFlags ops nodes now acc entries).count true := by
  intro entries
  induction entries with
  | nil => intro acc; rfl
  | cons e rest IH =>
    intro acc
    rw [supernovasOf, triggeredFlags]
    rw [List.length_append, IH, List.count_cons]
    by_cases hfl : nodeTriggered nodes acc.state e = true
    · obtain ⟨node, hn⟩ := Option.isSome_iff_exists.mp (nodeTriggered_isSome hfl)
      simp [hfl, snEventOf, hn]
      omega
    · simp only [Bool.not_eq_true] at hfl
      simp [hfl]

/-- Every collected supernova event carries the position of an existing node
of some processed entry, with the publish timestamp, and its structured id. -/
theorem mem_supernovasOf (ops : FloatOps K) (nodes : List (IntersectionNode K)) (now : K) :
    ∀ (entries : List ((ℤ × ℤ × ℤ) × List String)) (acc : PhaseAcc K)
      (ev : SupernovaEvent K),
      ev ∈ supernovasOf ops nodes now acc entries →
      ∃ en ∈ entries, ∃ node, nodes.find? (fun n => decide (n.id = en.1)) = some node
        ∧ ev = { id := (en.1, now), position := node.position, timestamp := now } := by
  intro entries
  induction entries with
  | nil => intro acc ev h; simp [supernovasOf] at h
  | cons e rest IH =>
    intro acc ev h
    rw [supernovasOf] at h
    rcases List.mem_append.mp h with h2 | h2
    · by_cases hfl : nodeTriggered nodes acc.state e = true
      · rw [if_pos hfl] at h2
        obtain ⟨node, hn⟩ := Option.isSome_iff_exists.mp (nodeTriggered_isSome hfl)
        unfold snEventOf at h2
        rw [hn] at h2
        rw [List.mem_singleton] at h2
        exact ⟨e, List.mem_cons_self e rest, node, hn, h2⟩
      · simp only [Bool.not_eq_true] at hfl
        rw [if_neg (by simp [hfl])] at h2
        simp at h2
    · obtain ⟨en, hen, node, hn, he⟩ := IH (processNode ops nodes now acc e) ev h2
      exact ⟨en, List.mem_cons_of_mem e hen, node, hn, he⟩

/-- Every collected removal mark is an occupant id of some processed entry. -/
theorem mem_removalsOf (ops : FloatOps K) (nodes : List (IntersectionNode K)) (now : K) :
    ∀ (entries : List ((ℤ × ℤ × ℤ) × List String)) (acc : PhaseAcc K) (pid : String),
      pid ∈ removalsOf ops nodes now acc entries →
      ∃ en ∈ entries, pid ∈ en.2 := by
  intro entries
  induction entries with
  | nil => intro acc pid h; simp [removalsOf] at h
  | cons e rest IH =>
    intro acc pid h
    rw [removalsOf] at h
    rcases List.mem_append.mp h with h2 | h2
    · by_cases hfl : nodeTriggered nodes acc.state e = true
      · rw [if_pos hfl] at h2
        exact ⟨e, List.mem_cons_self e rest, h2⟩
      · simp only [Bool.not_eq_true] at hfl
        rw [if_neg (by simp [hfl])] at h2
        simp at h2
    · obtain ⟨en, hen, hp⟩ := IH (processNode ops nodes now acc e) pid h2
      exact ⟨en, List.mem_cons_of_mem e hen, hp⟩

/-- A per-participant energy saturation propagates to the fold's supernova
flag: once one iteration's updated energy reaches the cap, the flag is true
and stays true. -/
theorem collisionFold_flag_of_step (ids : List String) (st : List (ParticleState K))
    (hnd : ids.Nodup) (hlen : 2 ≤ ids.length)
    (hsub : ∀ i ∈ ids, i ∈ st.map (fun p => p.id))
    (k : ℕ) (hk : k < ids.length) (cur : ParticleState K)
    (hcur : (((ids.take k).foldl (collisionStep ids) (st, false)).1).find?
        (fun p => decide (p.id = ids.get ⟨k, hk⟩)) = some cur)
    (hE : (1 : K) ≤ (specCollisionUpdate cur
        (othersOf ids (((ids.take k).foldl (collisionStep ids) (st, false)).1)
          (ids.get ⟨k, hk⟩))).energyLevel) :
    (collisionFold ids st).2 = true := by
  set stk := ((ids.take k).foldl (collisionStep ids) (st, false)).1 with hstk
  set pid := ids.get ⟨k, hk⟩ with hpid
  have hmapid : stk.map (fun p => p.id) = st.map (fun p => p.id) :=
    collisionFoldAux_map_id (ids.take k) st false
  have hsubk : ∀ i ∈ ids, i ∈ stk.map (fun p => p.id) := by
    intro i hi
    rw [hmapid]
    exact hsub i hi
  have holen : (othersOf ids stk pid).length = ids.length - 1 :=
    othersOf_length hnd (List.get_mem ids k hk) hsubk
  have ho : othersOf ids stk pid ≠ [] := by
    intro hc
    rw [hc] at holen
    simp at holen
    omega
  have hflag : ((ids.take (k + 1)).foldl (collisionStep ids) (st, false)).2 = true := by
    rw [foldl_take_succ (collisionStep ids) ids k hk (st, false)]
    rw [collisionStep_update (b := ((ids.take k).foldl (collisionStep ids) (st, false)).2)
      hcur ho]
    have hdec : decide ((1.0 : K) ≤ (specCollisionUpdate cur (othersOf ids stk pid)).energyLevel)
        = true := by
      rw [decide_eq_true_eq]
      calc (1.0 : K) = 1 := by norm_num
        _ ≤ _ := hE
    rw [hdec, Bool.or_true]
  unfold collisionFold
  nth_rewrite 2 [← List.take_append_drop (k + 1) ids]
  rw [List.foldl_append]
  have hsplit : (ids.take (k + 1)).foldl (collisionStep ids) (st, false)
      = (((ids.take (k + 1)).foldl (collisionStep ids) (st, false)).1, true) := by
    rw [← hflag]
  rw [hsplit]
  exact collisionFoldAux_flag_mono (ids.drop (k + 1)) _

/-- Adding the zero vector is the identity. -/
theorem vadd_vzero (a : Vec3 K) : Vec3.add a vzero = a := by
  simp [Vec3.add, vzero]

/-- Vector addition is associative. -/
theorem vadd_assoc (a b c : Vec3 K) :
    Vec3.add (Vec3.add a b) c = Vec3.add a (Vec3.add b c) := by
  simp only [Vec3.add, Vec3.mk.injEq]
  refine ⟨by ring, by ring, by ring⟩

/-- The source's corner-torque fold is the accumulator plus the spec's sum
of per-qualifying-occupant contributions. -/
theorem cornerTorqueFold_eq (ops : FloatOps K) (node : IntersectionNode K)
    (st : List (ParticleState K)) :
    ∀ (pIds : List String) (w0 : Vec3 K),
      cornerTorqueFold ops node st pIds w0
        = Vec3.add w0 (vsum ((qualifyingOcc st pIds).map
            (fun p => Vec3.smul (p.energyLevel * 0.0005) (vnormalize ops node.position)))) := by
  intro pIds
  induction pIds with
  | nil =>
    intro w0
    simp only [cornerTorqueFold, List.foldl_nil, qualifyingOcc, List.filterMap_nil,
      List.filter_nil, List.map_nil, vsum]
    rw [vadd_vzero]
  | cons i rest IH =>
    intro w0
    unfold cornerTorqueFold
    rw [List.foldl_cons]
    unfold qualifyingOcc
    rw [List.filterMap_cons]
    cases hf : st.find? (fun p => decide (p.id = i)) with
    | none =>
      have := IH w0
      unfold cornerTorqueFold at this
      rw [this]
      rfl
    | some particle =>
      dsimp only
      by_cases he : (0.2 : K) < particle.energyLevel
      · rw [if_pos he]
        have := IH (Vec3.add w0
          (Vec3.smul (particle.energyLevel * 0.0005) (vnormalize ops node.position)))
        unfold cornerTorqueFold at this
        rw [this]
        rw [List.filter_cons_of_pos (by simpa using he)]
        rw [List.map_cons]
        rw [show vsum (Vec3.smul (particle.energyLevel * 0.0005) (vnormalize ops node.position)
            :: (List.filter (fun p => decide (0.2 < p.energyLevel))
                (List.filterMap (fun pid => List.find? (fun p => decide (p.id = pid)) st)
                  rest)).map
              (fun p => Vec3.smul (p.energyLevel * 0.0005) (vnormalize ops node.position)))
          = Vec3.add (Vec3.smul (particle.energyLevel * 0.0005) (vnormalize ops node.position))
              (vsum ((List.filter (fun p => decide (0.2 < p.energyLevel))
                (List.filterMap (fun pid => List.find? (fun p => decide (p.id = pid)) st)
                  rest)).map
                (fun p => Vec3.smul (p.energyLevel * 0.0005) (vnormalize ops node.position))))
          from rfl]
        rw [vadd_assoc]
        rfl
      · rw [if_neg he]
        have := IH w0
        unfold cornerTorqueFold at this
        rw [this]
        rw [List.filter_cons_of_neg (by simpa using he)]
        rfl

/-- One node's processing adds exactly that node's torque to the angular
velocity and changes it in no other way. -/
theorem processNode_omega (ops : FloatOps K) (nodes : List (IntersectionNode K)) (now : K)
    (acc : PhaseAcc K) (entry : (ℤ × ℤ × ℤ) × List String) :
    (processNode ops nodes now acc entry).omega
      = Vec3.add acc.omega (nodeTorque ops nodes acc.state entry) := by
  unfold processNode nodeTorque
  cases hn : nodes.find? (fun n => decide (n.id = entry.1)) with
  | none => rw [vadd_vzero]
  | some node =>
    dsimp only
    by_cases hc : node.isCorner
    · simp only [if_pos hc]
      split_ifs
      all_goals exact cornerTorqueFold_eq ops node acc.state entry.2 acc.omega
    · simp only [if_neg hc]
      split_ifs
      all_goals exact (vadd_vzero acc.omega).symm

/-- Fold-level: the occupancy loop's angular velocity is the incoming one
plus the sum of the per-entry torques, in order. -/
theorem processNodes_omega (ops : FloatOps K) (nodes : List (IntersectionNode K)) (now : K) :
    ∀ (entries : List ((ℤ × ℤ × ℤ) × List String)) (acc : PhaseAcc K),
      (entries.foldl (processNode ops nodes now) acc).omega
        = Vec3.add acc.omega (vsum (torqueTrace ops nodes now acc entries)) := by
  intro entries
  induction entries with
  | nil =>
    intro acc
    rw [torqueTrace]
    simp only [List.foldl_nil, vsum]
    rw [vadd_vzero]
  | cons e rest IH =>
    intro acc
    rw [List.foldl_cons, torqueTrace]
    rw [IH (processNode ops nodes now acc e), processNode_omega]
    rw [show vsum (nodeTorque ops nodes acc.state e
        :: torqueTrace ops nodes now (processNode ops nodes now acc e) rest)
      = Vec3.add (nodeTorque ops nodes acc.state e)
          (vsum (torqueTrace ops nodes now (processNode ops nodes now acc e) rest)) from rfl]
    rw [vadd_assoc]

/-- The floor-based modulus is nonnegative for a positive divisor. -/
theorem mathMod_nonneg {a b : K} (hb : 0 < b) : 0 ≤ mathMod a b := by
  unfold mathMod
  have h1 : ((⌊a / b⌋ : ℤ) : K) ≤ a / b := Int.floor_le _
  have h2 : ((⌊a / b⌋ : ℤ) : K) * b ≤ a := (le_div_iff hb).mp h1
  nlinarith

/-- The floor-based modulus stays below a positive divisor. -/
theorem mathMod_lt {a b : K} (hb : 0 < b) : mathMod a b < b := by
  unfold mathMod
  have h1 : a / b < ((⌊a / b⌋ : ℤ) : K) + 1 := Int.lt_floor_add_one _
  have h2 : a < (((⌊a / b⌋ : ℤ) : K) + 1) * b := (div_lt_iff hb).mp h1
  nlinarith

/-- On a nonnegative weighted positional sum the derived node frequency
lands inside the configured band. -/
theorem calculateNodeFrequency_bounds {pos : Vec3 K}
    (h : 0 ≤ (pos.x + 20) * 1.5 + (pos.y + 20) * 10.0 + (pos.z + 20) * 0.5) :
    100 ≤ calculateNodeFrequency pos ∧ calculateNodeFrequency pos ≤ 999 := by
  rw [calculateNodeFrequency_eq_spec h]
  unfold specNodeFrequency
  set m := mathMod ((pos.x + 20) * 1.5 + (pos.y + 20) * 10.0 + (pos.z + 20) * 0.5) 899 with hm
  have hm0 : 0 ≤ m := mathMod_nonneg (by norm_num)
  have hm1 : m < 899 := mathMod_lt (by norm_num)
  have hlo : (100 : ℤ) ≤ jsRound ((100 : K) + m) := by
    unfold jsRound
    rw [Int.le_floor]
    push_cast
    linarith
  have hhi : jsRound ((100 : K) + m) ≤ 999 := by
    unfold jsRound
    have hlt : ⌊(100 : K) + m + 1 / 2⌋ < 1000 := by
      rw [Int.floor_lt]
      push_cast
      linarith
    omega
  exact ⟨by exact_mod_cast hlo, by exact_mod_cast hhi⟩

/-- With no supplied position, node frequencies inside `[105, 994]` and
random draws inside `[0, 1]`, the spawned frequency lands in the band. -/
theorem spawnFrequency_none_bounds {nodes : List (IntersectionNode K)} {o : SpawnOracle K}
    (hn : ∀ n ∈ nodes, (105 : K) ≤ n.frequency ∧ n.frequency ≤ 994)
    (hj0 : 0 ≤ o.rJitter) (hj1 : o.rJitter ≤ 1) (hf0 : 0 ≤ o.rFall) (hf1 : o.rFall ≤ 1) :
    100 ≤ spawnFrequency nodes none o ∧ spawnFrequency nodes none o ≤ 999 := by
  unfold spawnFrequency
  cases hfil : nodes.filter (fun n => !n.isCorner) with
  | nil =>
    constructor <;> nlinarith
  | cons n0 rest =>
    have hmem2 : (n0 :: rest).getD (⌊o.rPick * ((n0 :: rest).length : K)⌋).toNat n0
        ∈ n0 :: rest := by
      by_cases hidx : (⌊o.rPick * ((n0 :: rest).length : K)⌋).toNat < (n0 :: rest).length
      · rw [List.getD_eq_get _ n0 hidx]
        exact List.get_mem _ _ _
      · rw [List.getD_eq_default _ n0 (not_lt.mp hidx)]
        exact List.mem_cons_self n0 rest
    have hmem : (n0 :: rest).getD (⌊o.rPick * ((n0 :: rest).length : K)⌋).toNat n0 ∈ nodes :=
      List.mem_of_mem_filter (p := fun n => !n.isCorner) (by rw [hfil]; exact hmem2)
    obtain ⟨hb1, hb2⟩ := hn _ hmem
    constructor <;> nlinarith

/-- spawnParticle preserves the store bounds whenever the frequency it picks
is in the band. -/
theorem spawnParticle_storeInv_core {nodes : List (IntersectionNode K)}
    {parts : List (ParticleState K)} {posOpt : Option (Vec3 K)} {o : SpawnOracle K}
    (hfreq : 100 ≤ spawnFrequency nodes posOpt o ∧ spawnFrequency nodes posOpt o ≤ 999)
    (h : StoreInv parts) : StoreInv (spawnParticle nodes parts posOpt o) := by
  unfold spawnParticle
  by_cases hc : MAX_PARTICLES ≤ parts.length
  · rw [if_pos hc]; exact h
  · rw [if_neg hc]
    intro q hq
    unfold updateTargetNodes at hq
    obtain ⟨p, hp, rfl⟩ := List.mem_map.mp hq
    have hpin : InBounds p := by
      rcases List.mem_append.mp hp with hp2 | hp2
      · exact h p hp2
      · rw [List.mem_singleton] at hp2
        subst hp2
        exact ⟨hfreq.1, hfreq.2, le_refl _, by norm_num [DEFAULT_AMPLITUDE], by norm_num,
          by norm_num, le_refl _, by norm_num⟩
    exact hpin

/-- The whole drift/assignment/collision pipeline of one tick preserves the
store bounds. -/
theorem tickAcc_storeInv {ops : FloatOps K} {o : TickOracle K} {now : K} {s : SimState K}
    (h : StoreInv s.particles) : StoreInv (tickAcc ops o now s).state := by
  unfold tickAcc
  apply processNodes_storeInv
  show StoreInv (assignPass s.nodes _).1
  rw [assignPass_fst]
  intro q hq
  obtain ⟨p, hp, rfl⟩ := List.mem_map.mp hq
  apply assignTargetOf_inBounds
  obtain ⟨i, p0, hp0, rfl⟩ := mem_mapIdx_particles hp
  exact driftOne_inBounds (h p0 hp0)

/-- One tick preserves the store bounds, given in-band node frequencies
(with 5 of slack for the spawn jitter) and unit-interval random draws for
the stabilization-rule spawn. -/
theorem processFieldDynamics_storeInv {ops : FloatOps K} {o : TickOracle K} {now : K}
    {s : SimState K}
    (hn : ∀ n ∈ s.nodes, (105 : K) ≤ n.frequency ∧ n.frequency ≤ 994)
    (hj0 : 0 ≤ o.spawnO.rJitter) (hj1 : o.spawnO.rJitter ≤ 1)
    (hf0 : 0 ≤ o.spawnO.rFall) (hf1 : o.spawnO.rFall ≤ 1)
    (h : StoreInv s.particles) :
    StoreInv (processFieldDynamics ops o now s).state.particles := by
  have hfin : StoreInv ((tickAcc ops o now s).state.filter
      (fun p => !((tickAcc ops o now s).toRemove.contains p.id))) := by
    intro q hq
    exact tickAcc_storeInv h q (List.mem_of_mem_filter hq)
  show StoreInv (if _ then _ else _)
  split_ifs
  · exact spawnParticle_storeInv_core (spawnFrequency_none_bounds hn hj0 hj1 hf0 hf1) hfin
  · exact hfin

/-- Membership in a publish-then-expire channel at time `t` holds exactly
for events with a publication inside the live window. -/
theorem mem_channelContents_iff {E : Type} (pubs : List (E × K)) (L t : K) (e : E) :
    e ∈ channelContents pubs L t ↔ ∃ tp, (e, tp) ∈ pubs ∧ tp ≤ t ∧ t < tp + L := by
  constructor
  · intro h
    simp only [channelContents, List.mem_map, List.mem_filter, Bool.and_eq_true,
      decide_eq_true_eq] at h
    obtain ⟨⟨e', tp⟩, ⟨hmem, h1, h2⟩, rfl⟩ := h
    exact ⟨tp, hmem, h1, h2⟩
  · rintro ⟨tp, hmem, h1, h2⟩
    simp only [channelContents, List.mem_map, List.mem_filter, Bool.and_eq_true,
      decide_eq_true_eq]
    exact ⟨(e, tp), ⟨hmem, h1, h2⟩, rfl⟩

end Lemmas

/-! ### Concrete fixtures used by the witness theorems -/

/-- A non-corner node at the origin with frequency 110. -/
def nodeA : IntersectionNode ℝ :=
  { id := (0, 0, 0), position := ⟨0, 0, 0⟩, frequency := 110, intensity := 0.2, isCorner := false }

/-- A particle sitting at frequency 100 with all attributes at their floors. -/
def particleA : ParticleState ℝ :=
  { id := "a", baseFrequency := 100, locationalFrequency := 100, harmonicFactor := 1,
    amplitude := 0.4, energyLevel := 0.1, color := ⟨0, 0, 0⟩, targetNodeId := none }

/-- A fixed spawn oracle (all random draws zero). -/
def oracleA : SpawnOracle ℝ := { rPick := 0, rJitter := 0, rFall := 0, newId := "w", newColor := ⟨0, 0, 0⟩ }

/-- A store already at the population cap. -/
def eightParticles : List (ParticleState ℝ) := List.replicate 8 particleA

/-- A concrete collision event. -/
def collisionEventA : CollisionEvent ℝ :=
  { id := ((0, 0, 0), 0), nodeId := (0, 0, 0), particleIds := ["a", "b"], timestamp := 0 }

/-- A second particle, distinct id, attributes in bounds. -/
def particleB : ParticleState ℝ :=
  { id := "b", baseFrequency := 300, locationalFrequency := 300, harmonicFactor := 1,
    amplitude := 0.4, energyLevel := 0.9, color := ⟨0, 0, 0⟩, targetNodeId := none }

/-- An in-bounds particle with a chosen id. -/
def mkTestParticle (s : String) : ParticleState ℝ :=
  { id := s, baseFrequency := 300, locationalFrequency := 300, harmonicFactor := 1,
    amplitude := 0.4, energyLevel := 0.5, color := ⟨0, 0, 0⟩, targetNodeId := none }

/-- Six distinct occupant ids. -/
def sixIds : List String := ["a", "b", "c", "d", "e", "f"]

/-- Six distinct in-bounds particles. -/
def sixParticles : List (ParticleState ℝ) := sixIds.map mkTestParticle

section Claims

/-- C4: every node produced by grid generation carries the frequency
`round(100 + ((x+20)*1.5 + (y+20)*10.0 + (z+20)*0.5) mod 899)` of its 3D
position (the spec-side `specNodeFrequency`), and every node is the fixed
pure function `mkNode` of its lattice id and the startup configuration, so
grid generation — which takes no random or stateful input — reproduces the
identical node set (ids, positions, frequencies) on identical configuration. -/
theorem claim_c4_grid_frequency_deterministic :
    (∀ i : Fin (initializeNodes (K := ℝ)).length,
        ((initializeNodes (K := ℝ)).get i).frequency
          = specNodeFrequency ((initializeNodes (K := ℝ)).get i).position)
    ∧ (∀ i : Fin (initializeNodes (K := ℝ)).length,
        (initializeNodes (K := ℝ)).get i
          = mkNode ((initializeNodes (K := ℝ)).get i).id.1
              ((initializeNodes (K := ℝ)).get i).id.2.1
              ((initializeNodes (K := ℝ)).get i).id.2.2) := by
  constructor
  · intro i
    have hmem := List.get_mem (initializeNodes (K := ℝ)) i.1 i.2
    have hpos := initializeNodes_possum_nonneg hmem
    obtain ⟨x, y, z, _, _, _, heq⟩ := mem_initializeNodes hmem
    rw [heq]
    rw [heq] at hpos
    have : (mkNode x y z : IntersectionNode ℝ).frequency
        = calculateNodeFrequency (mkNode x y z : IntersectionNode ℝ).position := rfl
    rw [this, calculateNodeFrequency_eq_spec hpos]
  · intro i
    exact mem_initializeNodes_eq_mkNode (List.get_mem (initializeNodes (K := ℝ)) i.1 i.2)

/-- C1 counterexample: a spawn with the supplied position `(0, -40, 0)`
(an in-scope call — `spawnParticle(position?)` accepts any position) creates
a particle whose locationalFrequency is below 100, because the JS `%` is a
truncated remainder and `calculateNodeFrequency` is applied unclamped:
`(20)*1.5 + (-20)*10 + (20)*0.5 = -160`, so the frequency is
`round(100 - 160) = -60`, outside `[100, 999]`. -/
theorem claim_c1_counterexample :
    ∃ p ∈ spawnParticle (K := ℝ) [] [] (some ⟨0, -40, 0⟩) oracleA,
      p.locationalFrequency < 100 := by
  have h1 : ktrunc ((-160 : ℝ) / 899) = 0 := by
    unfold ktrunc
    rw [if_neg (by norm_num)]
    have hc1 : (-1 : ℤ) < ⌈(-160 : ℝ) / 899⌉ := by
      rw [Int.lt_ceil]
      norm_num
    have hc2 : ⌈(-160 : ℝ) / 899⌉ ≤ 0 := by
      rw [Int.ceil_le]
      norm_num
    omega
  have hfreq : calculateNodeFrequency (K := ℝ) ⟨0, -40, 0⟩ = -60 := by
    unfold calculateNodeFrequency
    have harg : ((0 : ℝ) + 20) * 1.5 + ((-40 : ℝ) + 20) * 10.0 + ((0 : ℝ) + 20) * 0.5
        = -160 := by norm_num
    simp only [harg, FREQ_LO, FREQ_HI]
    have h899 : ((999 - 100 : ℤ) : ℝ) = 899 := by norm_num
    rw [h899]
    unfold jsMod
    rw [h1]
    have harg2 : ((100 : ℤ) : ℝ) + (-160 - 899 * ((0 : ℤ) : ℝ)) = -60 := by norm_num
    rw [harg2]
    have hround : jsRound (-60 : ℝ) = -60 := by
      unfold jsRound
      rw [Int.floor_eq_iff]
      constructor <;> norm_num
    rw [hround]
    norm_num
  refine ⟨{ id := oracleA.newId
            baseFrequency := calculateNodeFrequency (⟨0, -40, 0⟩ : Vec3 ℝ)
            locationalFrequency := calculateNodeFrequency (⟨0, -40, 0⟩ : Vec3 ℝ)
            harmonicFactor := 1.0
            amplitude := DEFAULT_AMPLITUDE
            energyLevel := 0.1
            color := oracleA.newColor
            targetNodeId := none }, ?_, ?_⟩
  · simp only [spawnParticle, spawnFrequency, MAX_PARTICLES, updateTargetNodes,
      List.length_nil, List.nil_append, List.map_cons, List.map_nil]
    rw [if_neg (by norm_num)]
    simp [findNearestNode]
  · show calculateNodeFrequency (K := ℝ) ⟨0, -40, 0⟩ < 100
    rw [hfreq]
    norm_num

/-- C1 amended: the published attribute bounds (`locationalFrequency` in
`[100, 999]`, amplitude in `[0.4, 1]`, harmonicFactor in `[1, 4]`,
energyLevel in `[0.1, 1]`) are preserved by every tick and established or
preserved by every spawn — with the one exception the counterexample forces:
a spawn with a supplied position keeps the bounds only when the position's
weighted sum `(x+20)*1.5 + (y+20)*10 + (z+20)*0.5` is nonnegative (as it is
for every lattice position); a random spawn needs its unit-interval draws;
the tick needs node frequencies in `[105, 994]` for its stabilization-rule
spawn, which the actual grid (frequencies in `[196, 484]`) satisfies. -/
theorem claim_c1_bounds_amended :
    (∀ (ops : FloatOps ℝ) (o : TickOracle ℝ) (now : ℝ) (s : SimState ℝ),
        (∀ n ∈ s.nodes, (105 : ℝ) ≤ n.frequency ∧ n.frequency ≤ 994) →
        0 ≤ o.spawnO.rJitter → o.spawnO.rJitter ≤ 1 →
        0 ≤ o.spawnO.rFall → o.spawnO.rFall ≤ 1 →
        StoreInv s.particles →
        StoreInv (processFieldDynamics ops o now s).state.particles)
    ∧ (∀ (nodes : List (IntersectionNode ℝ)) (parts : List (ParticleState ℝ))
        (o : SpawnOracle ℝ),
        (∀ n ∈ nodes, (105 : ℝ) ≤ n.frequency ∧ n.frequency ≤ 994) →
        0 ≤ o.rJitter → o.rJitter ≤ 1 → 0 ≤ o.rFall → o.rFall ≤ 1 →
        StoreInv parts → StoreInv (spawnParticle nodes parts none o))
    ∧ (∀ (nodes : List (IntersectionNode ℝ)) (parts : List (ParticleState ℝ))
        (pos : Vec3 ℝ) (o : SpawnOracle ℝ),
        0 ≤ (pos.x + 20) * 1.5 + (pos.y + 20) * 10.0 + (pos.z + 20) * 0.5 →
        StoreInv parts → StoreInv (spawnParticle nodes parts (some pos) o))
    ∧ (∀ n ∈ initializeNodes (K := ℝ), (105 : ℝ) ≤ n.frequency ∧ n.frequency ≤ 994) := by
  refine ⟨?_, ?_, ?_, ?_⟩
  · intro ops o now s hn hj0 hj1 hf0 hf1 h
    exact processFieldDynamics_storeInv hn hj0 hj1 hf0 hf1 h
  · intro nodes parts o hn hj0 hj1 hf0 hf1 h
    exact spawnParticle_storeInv_core (spawnFrequency_none_bounds hn hj0 hj1 hf0 hf1) h
  · intro nodes parts pos o hpos h
    exact spawnParticle_storeInv_core (calculateNodeFrequency_bounds hpos) h
  · intro n hn
    obtain ⟨hb1, hb2⟩ := initializeNodes_frequency_bounds hn
    constructor <;> linarith

/-- Witness for C1's amended claim: one tick on the empty store over the
empty grid (bounds hypotheses trivially discharged) keeps the store inside
the bounds. -/
theorem claim_c1_bounds_amended_witness :
    StoreInv (processFieldDynamics realOps
      { jitter := fun _ => 0, spawnO := oracleA } 0
      { nodes := [], particles := [], collisionEvents := [], supernovaEvents := [],
        gridRotation := ⟨0, 0, 0, 1⟩, gridAngularVelocity := ⟨0, 0, 0⟩ }).state.particles :=
  claim_c1_bounds_amended.1 realOps { jitter := fun _ => 0, spawnO := oracleA } 0
    { nodes := [], particles := [], collisionEvents := [], supernovaEvents := [],
      gridRotation := ⟨0, 0, 0, 1⟩, gridAngularVelocity := ⟨0, 0, 0⟩ }
    (by simp) (by norm_num [oracleA]) (by norm_num [oracleA])
    (by norm_num [oracleA]) (by norm_num [oracleA]) (by simp [StoreInv])

/-- C2: in a collision whose occupant ids are pairwise distinct and all
resolvable in the store, the collision loop updates each occupant exactly
once, in order: at the k-th iteration the k-th occupant is found in the
state left by the previous iterations, sees exactly `numOccupants - 1`
others, and is replaced by the spec's collision update (resonance from the
immutable baseFrequency over the full range width 899, harmonic increase
`resonance * amplitudeFactor * (0.6 + 0.2*numOthers)` capped at 4.0,
amplitude increase `amplitudeFactor * 0.15` capped at 1.0, energy increase
`0.2 * numOthers` capped at 1.0), while every other id's particle is left
untouched by that iteration; consequently harmonicFactor, amplitude and
energyLevel are non-decreasing across the whole collision step. -/
theorem claim_c2_collision_update :
    ∀ (ids : List String) (st : List (ParticleState ℝ)),
      ids.Nodup → 2 ≤ ids.length →
      (∀ i ∈ ids, i ∈ st.map (fun p => p.id)) →
      StoreInv st →
      (∀ k (hk : k < ids.length),
        ∃ cur,
          (((ids.take k).foldl (collisionStep ids) (st, false)).1).find?
              (fun p => decide (p.id = ids.get ⟨k, hk⟩)) = some cur
          ∧ (othersOf ids (((ids.take k).foldl (collisionStep ids) (st, false)).1)
              (ids.get ⟨k, hk⟩)).length = ids.length - 1
          ∧ (((ids.take (k + 1)).foldl (collisionStep ids) (st, false)).1).find?
              (fun p => decide (p.id = ids.get ⟨k, hk⟩))
            = some (specCollisionUpdate cur
                (othersOf ids (((ids.take k).foldl (collisionStep ids) (st, false)).1)
                  (ids.get ⟨k, hk⟩)))
          ∧ (∀ pid', pid' ≠ ids.get ⟨k, hk⟩ →
              (((ids.take (k + 1)).foldl (collisionStep ids) (st, false)).1).find?
                  (fun p => decide (p.id = pid'))
                = (((ids.take k).foldl (collisionStep ids) (st, false)).1).find?
                  (fun p => decide (p.id = pid'))))
      ∧ (∀ pid q q', st.find? (fun p => decide (p.id = pid)) = some q →
           ((collisionFold ids st).1).find? (fun p => decide (p.id = pid)) = some q' →
           q.harmonicFactor ≤ q'.harmonicFactor ∧ q.amplitude ≤ q'.amplitude
             ∧ q.energyLevel ≤ q'.energyLevel) := by
  intro ids st hnd hlen hsub hinv
  constructor
  · exact collisionFold_step_char ids st hnd hlen hsub hinv
  · intro pid q q' hq hq'
    obtain ⟨q2, hq2, h1, h2, h3⟩ :=
      @collisionFold_mono_aux ℝ _ _ ids ids st false pid q hinv hq
    have : q2 = q' := by
      unfold collisionFold at hq'
      rw [hq2] at hq'
      exact (Option.some.injEq _ _).mp hq'
    subst this
    exact ⟨h1, h2, h3⟩

/-- Witness for C2: the first iteration of a two-particle collision updates
the first occupant by the spec formulas. -/
theorem claim_c2_collision_update_witness :
    ∃ cur,
      (((["a", "b"].take 0).foldl (collisionStep ["a", "b"])
          (([particleA, particleB] : List (ParticleState ℝ)), false)).1).find?
          (fun p => decide (p.id = ["a", "b"].get ⟨0, by norm_num⟩)) = some cur
      ∧ (othersOf ["a", "b"]
          (((["a", "b"].take 0).foldl (collisionStep ["a", "b"])
            (([particleA, particleB] : List (ParticleState ℝ)), false)).1)
          (["a", "b"].get ⟨0, by norm_num⟩)).length = ["a", "b"].length - 1
      ∧ (((["a", "b"].take 1).foldl (collisionStep ["a", "b"])
          (([particleA, particleB] : List (ParticleState ℝ)), false)).1).find?
          (fun p => decide (p.id = ["a", "b"].get ⟨0, by norm_num⟩))
        = some (specCollisionUpdate cur
            (othersOf ["a", "b"]
              (((["a", "b"].take 0).foldl (collisionStep ["a", "b"])
                (([particleA, particleB] : List (ParticleState ℝ)), false)).1)
              (["a", "b"].get ⟨0, by norm_num⟩)))
      ∧ (∀ pid', pid' ≠ ["a", "b"].get ⟨0, by norm_num⟩ →
          (((["a", "b"].take 1).foldl (collisionStep ["a", "b"])
            (([particleA, particleB] : List (ParticleState ℝ)), false)).1).find?
              (fun p => decide (p.id = pid'))
            = (((["a", "b"].take 0).foldl (collisionStep ["a", "b"])
              (([particleA, particleB] : List (ParticleState ℝ)), false)).1).find?
              (fun p => decide (p.id = pid'))) :=
  (claim_c2_collision_update ["a", "b"] [particleA, particleB]
    (by decide) (by norm_num)
    (by intro i hi; simp [particleA, particleB]; simpa using hi)
    (by
      intro p hp
      rcases List.mem_cons.mp hp with rfl | hp2
      · exact ⟨by norm_num [particleA], by norm_num [particleA],
          by norm_num [particleA, DEFAULT_AMPLITUDE], by norm_num [particleA],
          by norm_num [particleA], by norm_num [particleA],
          by norm_num [particleA], by norm_num [particleA]⟩
      · rw [List.mem_singleton] at hp2
        subst hp2
        exact ⟨by norm_num [particleB], by norm_num [particleB],
          by norm_num [particleB, DEFAULT_AMPLITUDE], by norm_num [particleB],
          by norm_num [particleB], by norm_num [particleB],
          by norm_num [particleB], by norm_num [particleB]⟩)).1 0 (by norm_num)

/-- C10: in a collision among six or more occupants with distinct resolvable
ids, the per-participant energy increase `0.2 * (n-1)` is at least 1, so
every participant's energyLevel is driven to the 1.0 cap regardless of its
prior (in-bounds) state, the supernova flag is set unconditionally, and the
node's processing marks every occupant for removal and schedules exactly one
replacement explosion. -/
theorem claim_c10_mass_collision_supernova :
    ∀ (ids : List String) (st : List (ParticleState ℝ)),
      ids.Nodup → 6 ≤ ids.length →
      (∀ i ∈ ids, i ∈ st.map (fun p => p.id)) →
      StoreInv st →
      (∀ pid ∈ ids, ∃ q',
          ((collisionFold ids st).1).find? (fun p => decide (p.id = pid)) = some q'
            ∧ q'.energyLevel = 1)
      ∧ (collisionFold ids st).2 = true
      ∧ (∀ (ops : FloatOps ℝ) (nodes : List (IntersectionNode ℝ)) (now : ℝ)
          (acc : PhaseAcc ℝ) (entry : (ℤ × ℤ × ℤ) × List String),
          acc.state = st → entry.2 = ids →
          (nodes.find? (fun n => decide (n.id = entry.1))).isSome = true →
          (processNode ops nodes now acc entry).toRemove = acc.toRemove ++ ids
            ∧ (processNode ops nodes now acc entry).explosions = acc.explosions + 1) := by
  intro ids st hnd hlen hsub hinv
  refine ⟨collisionFold_energy_sat ids st hnd hlen hsub hinv,
    collisionFold_flag_sat ids st hnd hlen hsub hinv, ?_⟩
  intro ops nodes now acc entry hst hids hsome
  obtain ⟨node, hn⟩ := Option.isSome_iff_exists.mp hsome
  have htrig : nodeTriggered nodes acc.state entry = true := by
    unfold nodeTriggered
    rw [hn]
    have hcids : collidingIdsOf acc.state entry.2 = ids := by
      rw [hst, hids]
      exact collidingIdsOf_eq hsub
    rw [if_pos (by rw [hids]; omega), hcids, if_pos (by omega), hst]
    exact collisionFold_flag_sat ids st hnd hlen hsub hinv
  obtain ⟨_, _, g3, g4⟩ := processNode_effects ops nodes now acc entry
  constructor
  · rw [g3, htrig, if_pos rfl, hids]
  · rw [g4, htrig, if_pos rfl]

/-- Witness for C10: a six-particle collision on concrete in-bounds
particles sets the supernova flag. -/
theorem claim_c10_mass_collision_supernova_witness :
    (collisionFold sixIds sixParticles).2 = true :=
  (claim_c10_mass_collision_supernova sixIds sixParticles
    (by decide) (by norm_num [sixIds])
    (by intro i hi; simpa [sixParticles, sixIds, mkTestParticle] using hi)
    (by
      intro p hp
      have hb : ∀ s, InBounds (mkTestParticle s) := by
        intro s
        exact ⟨by norm_num [mkTestParticle], by norm_num [mkTestParticle],
          by norm_num [mkTestParticle, DEFAULT_AMPLITUDE], by norm_num [mkTestParticle],
          by norm_num [mkTestParticle], by norm_num [mkTestParticle],
          by norm_num [mkTestParticle], by norm_num [mkTestParticle]⟩
      simp only [sixParticles, sixIds, List.map_cons, List.map_nil, List.mem_cons,
        List.not_mem_nil, or_false] at hp
      rcases hp with rfl | rfl | rfl | rfl | rfl | rfl
      all_goals exact hb _)).2.1

/-- C3: the supernova pipeline of one tick — a participant whose post-update
energy reaches 1.0 sets that node's supernova flag; per triggering node
exactly one SupernovaEvent is published (count equals the number of
triggered entries), carrying that node's position; every occupant of a
triggering node is marked for removal and every mark is an occupant of a
processed node; the occupancy loop never removes a particle mid-loop (the
id sequence is invariant across the whole fold, so one node's removal
decisions cannot perturb another's occupancy within the tick), the filter
runs once after the loop, and exactly one replacement spawn per explosion is
scheduled (`scheduledSpawns` equals the explosion count) rather than applied
inside the tick. -/
theorem claim_c3_supernova_pipeline :
    (∀ (ops : FloatOps ℝ) (o : TickOracle ℝ) (now : ℝ) (s : SimState ℝ),
        (processFieldDynamics ops o now s).state.particles
          = (let acc := tickAcc ops o now s
             let fin := acc.state.filter (fun p => !(acc.toRemove.contains p.id))
             if 0.7 ≤ globalAmplitude fin ∧ fin.length < 3 then
               spawnParticle s.nodes fin none o.spawnO
             else fin)
        ∧ (processFieldDynamics ops o now s).scheduledSpawns = (tickAcc ops o now s).explosions
        ∧ (processFieldDynamics ops o now s).state.supernovaEvents
          = s.supernovaEvents ++ (tickAcc ops o now s).supernovas)
    ∧ (∀ (ops : FloatOps ℝ) (nodes : List (IntersectionNode ℝ)) (now : ℝ)
        (entries : List ((ℤ × ℤ × ℤ) × List String)) (acc : PhaseAcc ℝ),
        (entries.foldl (processNode ops nodes now) acc).state.map (fun p => p.id)
          = acc.state.map (fun p => p.id)
        ∧ (entries.foldl (processNode ops nodes now) acc).supernovas
          = acc.supernovas ++ supernovasOf ops nodes now acc entries
        ∧ (entries.foldl (processNode ops nodes now) acc).toRemove
          = acc.toRemove ++ removalsOf ops nodes now acc entries
        ∧ (entries.foldl (processNode ops nodes now) acc).explosions
          = acc.explosions + (triggeredFlags ops nodes now acc entries).count true
        ∧ (supernovasOf ops nodes now acc entries).length
          = (triggeredFlags ops nodes now acc entries).count true)
    ∧ (∀ (ops : FloatOps ℝ) (nodes : List (IntersectionNode ℝ)) (now : ℝ)
        (entries : List ((ℤ × ℤ × ℤ) × List String)) (acc : PhaseAcc ℝ)
        (ev : SupernovaEvent ℝ),
        ev ∈ supernovasOf ops nodes now acc entries →
        ∃ en ∈ entries, ∃ node, nodes.find? (fun n => decide (n.id = en.1)) = some node
          ∧ ev = { id := (en.1, now), position := node.position, timestamp := now })
    ∧ (∀ (ops : FloatOps ℝ) (nodes : List (IntersectionNode ℝ)) (now : ℝ)
        (entries : List ((ℤ × ℤ × ℤ) × List String)) (acc : PhaseAcc ℝ) (pid : String),
        pid ∈ removalsOf ops nodes now acc entries → ∃ en ∈ entries, pid ∈ en.2)
    ∧ (∀ (ids : List String) (st : List (ParticleState ℝ)),
        ids.Nodup → 2 ≤ ids.length →
        (∀ i ∈ ids, i ∈ st.map (fun p => p.id)) →
        ∀ k (hk : k < ids.length) (cur : ParticleState ℝ),
          (((ids.take k).foldl (collisionStep ids) (st, false)).1).find?
              (fun p => decide (p.id = ids.get ⟨k, hk⟩)) = some cur →
          (1 : ℝ) ≤ (specCollisionUpdate cur
              (othersOf ids (((ids.take k).foldl (collisionStep ids) (st, false)).1)
                (ids.get ⟨k, hk⟩))).energyLevel →
          (collisionFold ids st).2 = true) := by
  refine ⟨?_, ?_, ?_, ?_, ?_⟩
  · intro ops o now s
    exact ⟨rfl, rfl, rfl⟩
  · intro ops nodes now entries acc
    obtain ⟨h1, h2, h3, h4⟩ := processNodes_effects ops nodes now entries acc
    exact ⟨h4, h1, h2, h3, supernovasOf_length ops nodes now entries acc⟩
  · intro ops nodes now entries acc ev h
    exact mem_supernovasOf ops nodes now entries acc ev h
  · intro ops nodes now entries acc pid h
    exact mem_removalsOf ops nodes now entries acc pid h
  · intro ids st hnd hlen hsub k hk cur hcur hE
    exact collisionFold_flag_of_step ids st hnd hlen hsub k hk cur hcur hE

/-- Witness for C3: a two-particle collision in which the second participant
(pre-energy 0.9, one other occupant, increase 0.2) reaches the 1.0 cap sets
the supernova flag. -/
theorem claim_c3_supernova_pipeline_witness :
    (collisionFold ["a", "b"] [particleA, particleB]).2 = true :=
  claim_c3_supernova_pipeline.2.2.2.2 ["a", "b"] [particleA, particleB]
    (by decide) (by norm_num)
    (by intro i hi; simp [particleA, particleB]; simpa using hi)
    1 (by norm_num) particleB rfl
    (by
      have hoth : othersOf ["a", "b"]
          (((["a", "b"].take 1).foldl (collisionStep ["a", "b"])
            (([particleA, particleB] : List (ParticleState ℝ)), false)).1) "b"
          = [{ particleA with
                harmonicFactor := (specCollisionUpdate particleA
                  (othersOf ["a", "b"] [particleA, particleB] "a")).harmonicFactor
                amplitude := (specCollisionUpdate particleA
                  (othersOf ["a", "b"] [particleA, particleB] "a")).amplitude
                energyLevel := (specCollisionUpdate particleA
                  (othersOf ["a", "b"] [particleA, particleB] "a")).energyLevel
                color := (specCollisionUpdate particleA
                  (othersOf ["a", "b"] [particleA, particleB] "a")).color }] := rfl
      rw [show (["a", "b"].get ⟨1, by norm_num⟩) = "b" from rfl, hoth]
      simp only [specCollisionUpdate, List.length_cons, List.length_nil]
      rw [show (1.0 : ℝ) = 1 from by norm_num]
      apply le_min (le_refl 1)
      norm_num [particleB])

/-- C6: in every tick the angular velocity is first damped by the factor
0.97 and thereafter changed only by corner torque: the tick's published
angular velocity equals the damped value plus the ordered sum of per-node
torques, where a node's torque is zero unless it exists and is a corner and
otherwise is the sum over its occupants with energyLevel above 0.2 of
`normalize(node.position) * (energyLevel * 0.0005)` (with the real square
root via `realOps`); the source's torque fold equals that per-occupant sum,
and no other operation of the tick writes the angular velocity. -/
theorem claim_c6_angular_velocity :
    (∀ (o : TickOracle ℝ) (now : ℝ) (s : SimState ℝ),
        (processFieldDynamics realOps o now s).state.gridAngularVelocity
          = (tickAcc realOps o now s).omega)
    ∧ (∀ (o : TickOracle ℝ) (now : ℝ) (s : SimState ℝ),
        (processFieldDynamics realOps o now s).state.gridAngularVelocity
          = Vec3.add (Vec3.smul 0.97 s.gridAngularVelocity)
              (vsum (torqueTrace realOps s.nodes now (tickInit o s) (tickEntries o s))))
    ∧ (∀ (ops : FloatOps ℝ) (nodes : List (IntersectionNode ℝ)) (now : ℝ)
        (entries : List ((ℤ × ℤ × ℤ) × List String)) (acc : PhaseAcc ℝ),
        (entries.foldl (processNode ops nodes now) acc).omega
          = Vec3.add acc.omega (vsum (torqueTrace ops nodes now acc entries)))
    ∧ (∀ (ops : FloatOps ℝ) (node : IntersectionNode ℝ) (st : List (ParticleState ℝ))
        (pIds : List String) (w0 : Vec3 ℝ),
        cornerTorqueFold ops node st pIds w0
          = Vec3.add w0 (vsum ((qualifyingOcc st pIds).map
              (fun p => Vec3.smul (p.energyLevel * 0.0005) (vnormalize ops node.position)))))
    ∧ (∀ (st : List (ParticleState ℝ)) (pIds : List String) (p : ParticleState ℝ),
        p ∈ qualifyingOcc st pIds → p ∈ st ∧ (0.2 : ℝ) < p.energyLevel)
    ∧ (∀ (ops : FloatOps ℝ) (nodes : List (IntersectionNode ℝ)) (st : List (ParticleState ℝ))
        (entry : (ℤ × ℤ × ℤ) × List String) (node : IntersectionNode ℝ),
        nodes.find? (fun n => decide (n.id = entry.1)) = some node →
        node.isCorner = false →
        nodeTorque ops nodes st entry = vzero) := by
  refine ⟨?_, ?_, ?_, ?_, ?_, ?_⟩
  · intro o now s
    rfl
  · intro o now s
    exact processNodes_omega realOps s.nodes now (tickEntries o s) (tickInit o s)
  · intro ops nodes now entries acc
    exact processNodes_omega ops nodes now entries acc
  · intro ops node st pIds w0
    exact cornerTorqueFold_eq ops node st pIds w0
  · intro st pIds p hp
    unfold qualifyingOcc at hp
    have hmem := List.mem_filter.mp hp
    obtain ⟨i, _, hfind⟩ := List.mem_filterMap.mp hmem.1
    refine ⟨List.mem_of_find?_eq_some hfind, ?_⟩
    have := hmem.2
    simpa using this
  · intro ops nodes st entry node hfind hc
    unfold nodeTorque
    rw [hfind]
    simp [hc]

/-- Witness for C6: a found non-corner node contributes no torque. -/
theorem claim_c6_angular_velocity_witness :
    nodeTorque realOps [nodeA] ([] : List (ParticleState ℝ)) ((0, 0, 0), []) = vzero :=
  claim_c6_angular_velocity.2.2.2.2.2 realOps [nodeA] [] ((0, 0, 0), []) nodeA rfl rfl

/-- C5: the nearest-node lookup equals the spec-side first-minimal-wins
lookup (ties keep the earlier node); a returned node is a member of the
collection minimizing the absolute frequency distance; the lookup is empty
exactly when the node collection is empty; after the tick's reassignment
pass over a nonempty node collection every particle's target is the id of
its nearest node; and after the spawn path's reassignment every particle's
target is the nearest node's id, null exactly when the collection is
empty. -/
theorem claim_c5_nearest_target :
    (∀ (nodes : List (IntersectionNode ℝ)) (freq : ℝ),
        findNearestNode nodes freq = firstNearest freq nodes)
    ∧ (∀ (nodes : List (IntersectionNode ℝ)) (freq : ℝ) (m : IntersectionNode ℝ),
        findNearestNode nodes freq = some m →
          m ∈ nodes ∧ ∀ n ∈ nodes, |m.frequency - freq| ≤ |n.frequency - freq|)
    ∧ (∀ (nodes : List (IntersectionNode ℝ)) (freq : ℝ),
        findNearestNode nodes freq = none ↔ nodes = [])
    ∧ (∀ (nodes : List (IntersectionNode ℝ)) (parts : List (ParticleState ℝ)),
        nodes ≠ [] →
          ∀ p' ∈ (assignPass nodes parts).1,
            ∃ m, findNearestNode nodes p'.locationalFrequency = some m
              ∧ p'.targetNodeId = some m.id)
    ∧ (∀ (nodes : List (IntersectionNode ℝ)) (parts : List (ParticleState ℝ)),
        ∀ p' ∈ updateTargetNodes nodes parts,
          p'.targetNodeId = (findNearestNode nodes p'.locationalFrequency).map (fun n => n.id)
            ∧ (p'.targetNodeId = none ↔ nodes = [])) := by
  refine ⟨fun nodes freq => findNearestNode_eq_firstNearest nodes freq, ?_, ?_, ?_, ?_⟩
  · intro nodes freq m h
    rw [findNearestNode_eq_firstNearest] at h
    exact ⟨firstNearest_mem h, firstNearest_min h⟩
  · intro nodes freq
    rw [findNearestNode_eq_firstNearest]
    constructor
    · exact fun h => firstNearest_none_iff.mp h
    · intro h
      subst h
      rfl
  · intro nodes parts hne p' hp
    rw [assignPass_fst] at hp
    obtain ⟨p, _, rfl⟩ := List.mem_map.mp hp
    unfold assignTargetOf
    cases h : findNearestNode nodes p.locationalFrequency with
    | none =>
      rw [findNearestNode_eq_firstNearest] at h
      exact absurd (firstNearest_none_iff.mp h) hne
    | some m =>
      refine ⟨m, ?_, ?_⟩
      · simpa using h
      · simp
  · intro nodes parts p' hp
    unfold updateTargetNodes at hp
    obtain ⟨p, _, rfl⟩ := List.mem_map.mp hp
    constructor
    · simp
    · cases h : findNearestNode nodes p.locationalFrequency with
      | none =>
        simp only [h, Option.map_none]
        rw [findNearestNode_eq_firstNearest] at h
        simp [firstNearest_none_iff.mp h]
      | some m =>
        simp only [h, Option.map_some]
        constructor
        · intro hcon
          simp at hcon
        · intro hcon
          subst hcon
          simp [findNearestNode] at h

/-- Witness for C5: on the one-node collection the reassignment pass gives
the single particle a nearest target. -/
theorem claim_c5_nearest_target_witness :
    ∃ m, findNearestNode [nodeA] ((assignTargetOf [nodeA] particleA).locationalFrequency) = some m
      ∧ (assignTargetOf [nodeA] particleA).targetNodeId = some m.id :=
  claim_c5_nearest_target.2.2.2.1 [nodeA] [particleA] (by simp)
    (assignTargetOf [nodeA] particleA)
    (by rw [assignPass_fst]; exact List.mem_singleton.mpr rfl)

/-- C8: spawnParticle is a silent no-op — the store is returned unchanged,
no error is signalled — whenever the population is at or above
`MAX_PARTICLES` (8); consequently the population never exceeds 8
immediately after any spawn attempt. -/
theorem claim_c8_spawn_cap_noop :
    (∀ (nodes : List (IntersectionNode ℝ)) (parts : List (ParticleState ℝ))
        (posOpt : Option (Vec3 ℝ)) (o : SpawnOracle ℝ),
        MAX_PARTICLES ≤ parts.length → spawnParticle nodes parts posOpt o = parts)
    ∧ (∀ (nodes : List (IntersectionNode ℝ)) (parts : List (ParticleState ℝ))
        (posOpt : Option (Vec3 ℝ)) (o : SpawnOracle ℝ),
        parts.length ≤ MAX_PARTICLES → (spawnParticle nodes parts posOpt o).length ≤ MAX_PARTICLES) := by
  constructor
  · intro nodes parts posOpt o h
    simp [spawnParticle, h]
  · intro nodes parts posOpt o h
    by_cases hc : MAX_PARTICLES ≤ parts.length
    · simpa [spawnParticle, hc] using h
    · simp only [spawnParticle, hc, if_false, updateTargetNodes, List.length_map,
        List.length_append, List.length_singleton]
      unfold MAX_PARTICLES at *
      omega

/-- C7 counterexample: the tiny-grid fallback of spawnParticle cannot
produce the in-band frequency 150 for any random draw in `[0, 1]` — the
fallback is `200 + rand * 600`, which spans only `[200, 800]`, not the whole
band `[100, 999]` as the claim states. -/
theorem claim_c7_counterexample :
    ¬ ∃ o : SpawnOracle ℝ, 0 ≤ o.rFall ∧ o.rFall ≤ 1
      ∧ ∃ p ∈ spawnParticle [] [] none o, p.locationalFrequency = 150 := by
  rintro ⟨o, h0, _, p, hp, hf⟩
  simp only [spawnParticle, spawnFrequency, updateTargetNodes, MAX_PARTICLES,
    List.length_nil, List.filter_nil, List.nil_append, List.map_cons, List.map_nil] at hp
  rw [if_neg (by norm_num)] at hp
  simp only [List.map_cons, List.map_nil, List.mem_singleton] at hp
  subst hp
  simp only [findNearestNode, Option.map_none] at hf
  nlinarith

/-- C7 amended: with a supplied position the spawned particle's frequency is
the grid's derived frequency there; with no position it takes a random
non-corner node's frequency jittered by up to ±5 (for a pick draw in
`[0, 1)` the node is the one indexed by `floor(rand * count)`), falling back
to a uniform random frequency in the sub-band `[200, 800]` — not the whole
band — when no non-corner node exists; in all cases the new particle starts
with amplitude 0.4, energyLevel 0.1, harmonicFactor 1.0, and an immediately
assigned nearest target node. -/
theorem claim_c7_spawn_amended :
    ∀ (nodes : List (IntersectionNode ℝ)) (parts : List (ParticleState ℝ))
      (posOpt : Option (Vec3 ℝ)) (o : SpawnOracle ℝ),
      parts.length < MAX_PARTICLES →
      ∃ p', spawnParticle nodes parts posOpt o = updateTargetNodes nodes parts ++ [p']
        ∧ p'.amplitude = DEFAULT_AMPLITUDE
        ∧ p'.energyLevel = 0.1
        ∧ p'.harmonicFactor = 1.0
        ∧ p'.targetNodeId = (findNearestNode nodes p'.locationalFrequency).map (fun n => n.id)
        ∧ p'.baseFrequency = p'.locationalFrequency
        ∧ p'.locationalFrequency = spawnFrequency nodes posOpt o
        ∧ (∀ pos, posOpt = some pos → p'.locationalFrequency = calculateNodeFrequency pos)
        ∧ (posOpt = none →
            (∀ n0 rest, nodes.filter (fun n => !n.isCorner) = n0 :: rest →
              (∃ nd ∈ n0 :: rest,
                  p'.locationalFrequency = nd.frequency + (o.rJitter - 0.5) * 10)
                ∧ (0 ≤ o.rPick → o.rPick < 1 →
                    ∃ hidx : (⌊o.rPick * ((n0 :: rest).length : ℝ)⌋).toNat < (n0 :: rest).length,
                      p'.locationalFrequency
                        = ((n0 :: rest).get
                              ⟨(⌊o.rPick * ((n0 :: rest).length : ℝ)⌋).toNat, hidx⟩).frequency
                            + (o.rJitter - 0.5) * 10))
            ∧ (nodes.filter (fun n => !n.isCorner) = [] →
                p'.locationalFrequency = 200 + o.rFall * 600
                  ∧ (0 ≤ o.rFall → o.rFall ≤ 1 →
                      200 ≤ p'.locationalFrequency ∧ p'.locationalFrequency ≤ 800))) := by
  intro nodes parts posOpt o hlen
  simp only [spawnParticle, updateTargetNodes, not_le.mpr hlen, if_neg (not_le.mpr hlen),
    List.map_append, List.map_cons, List.map_nil]
  set freq := spawnFrequency nodes posOpt o with hfreq
  refine ⟨_, rfl, rfl, rfl, rfl, by simp, rfl, rfl, ?_, ?_⟩
  · intro pos hpos
    simp only [hfreq, hpos, spawnFrequency]
  · intro hnone
    constructor
    · intro n0 rest hfil
      have hval : freq = ((n0 :: rest).getD (⌊o.rPick * ((n0 :: rest).length : ℝ)⌋).toNat n0).frequency
          + (o.rJitter - 0.5) * 10 := by
        simp only [hfreq, hnone, spawnFrequency, hfil]
      constructor
      · refine ⟨(n0 :: rest).getD (⌊o.rPick * ((n0 :: rest).length : ℝ)⌋).toNat n0, ?_, hval⟩
        by_cases hidx : (⌊o.rPick * ((n0 :: rest).length : ℝ)⌋).toNat < (n0 :: rest).length
        · rw [List.getD_eq_get _ n0 hidx]
          exact List.get_mem _ _ _
        · rw [List.getD_eq_default _ n0 (not_lt.mp hidx)]
          exact List.mem_cons_self n0 rest
      · intro hr0 hr1
        have hlenpos : (0 : ℝ) < ((n0 :: rest).length : ℝ) := by
          simp only [List.length_cons]
          positivity
        have hidx : (⌊o.rPick * ((n0 :: rest).length : ℝ)⌋).toNat < (n0 :: rest).length := by
          have hlt : ⌊o.rPick * ((n0 :: rest).length : ℝ)⌋ < ((n0 :: rest).length : ℤ) := by
            rw [Int.floor_lt]
            push_cast
            calc o.rPick * ((n0 :: rest).length : ℝ)
                < 1 * ((n0 :: rest).length : ℝ) := by
                  exact mul_lt_mul_of_pos_right hr1 hlenpos
              _ = ((n0 :: rest).length : ℝ) := one_mul _
          have hpos : 0 < (n0 :: rest).length := by simp
          omega
        refine ⟨hidx, ?_⟩
        rw [hval, List.getD_eq_get _ n0 hidx]
    · intro hfil
      have hval : freq = 200 + o.rFall * 600 := by
        simp only [hfreq, hnone, spawnFrequency, hfil]
      refine ⟨hval, fun h0 h1 => ⟨by nlinarith [hval], by nlinarith [hval]⟩⟩

/-- Witness for C7's amended theorem: spawning into an empty store below the
cap produces the described particle. -/
theorem claim_c7_spawn_amended_witness :
    ∃ p', spawnParticle [] [] none oracleA = updateTargetNodes [] [] ++ [p']
        ∧ p'.amplitude = DEFAULT_AMPLITUDE
        ∧ p'.energyLevel = 0.1
        ∧ p'.harmonicFactor = 1.0
        ∧ p'.targetNodeId = (findNearestNode [] p'.locationalFrequency).map (fun n => n.id)
        ∧ p'.baseFrequency = p'.locationalFrequency
        ∧ p'.locationalFrequency = spawnFrequency [] none oracleA
        ∧ (∀ pos, (none : Option (Vec3 ℝ)) = some pos →
            p'.locationalFrequency = calculateNodeFrequency pos)
        ∧ ((none : Option (Vec3 ℝ)) = none →
            (∀ n0 rest, ([] : List (IntersectionNode ℝ)).filter (fun n => !n.isCorner) = n0 :: rest →
              (∃ nd ∈ n0 :: rest,
                  p'.locationalFrequency = nd.frequency + (oracleA.rJitter - 0.5) * 10)
                ∧ (0 ≤ oracleA.rPick → oracleA.rPick < 1 →
                    ∃ hidx : (⌊oracleA.rPick * ((n0 :: rest).length : ℝ)⌋).toNat < (n0 :: rest).length,
                      p'.locationalFrequency
                        = ((n0 :: rest).get
                              ⟨(⌊oracleA.rPick * ((n0 :: rest).length : ℝ)⌋).toNat, hidx⟩).frequency
                            + (oracleA.rJitter - 0.5) * 10))
            ∧ (([] : List (IntersectionNode ℝ)).filter (fun n => !n.isCorner) = [] →
                p'.locationalFrequency = 200 + oracleA.rFall * 600
                  ∧ (0 ≤ oracleA.rFall → oracleA.rFall ≤ 1 →
                      200 ≤ p'.locationalFrequency ∧ p'.locationalFrequency ≤ 800))) :=
  claim_c7_spawn_amended [] [] none oracleA (by norm_num [MAX_PARTICLES])

/-- C9: every tick schedules each newly published CollisionEvent's removal
exactly at its publish time plus 1500 ms (1.5 s) and each SupernovaEvent's
at publish time plus 2000 ms (2.0 s); under the timer semantics
(`channelContents`) an event is present at every time in the half-open live
window and absent once its lifetime has elapsed; and each removal callback
deletes exactly the events with the matching id. -/
theorem claim_c9_event_expiry :
    (∀ (ops : FloatOps ℝ) (o : TickOracle ℝ) (now : ℝ) (s : SimState ℝ),
        (∀ r ∈ (processFieldDynamics ops o now s).collisionRemovalsDue,
          ∃ e ∈ (processFieldDynamics ops o now s).state.collisionEvents,
            r.1 = e.id ∧ r.2 = e.timestamp + 1500)
        ∧ (∀ r ∈ (processFieldDynamics ops o now s).supernovaRemovalsDue,
          ∃ e ∈ (processFieldDynamics ops o now s).state.supernovaEvents,
            r.1 = e.id ∧ r.2 = e.timestamp + 2000))
    ∧ (∀ (pubs : List (CollisionEvent ℝ × ℝ)) (L t : ℝ) (e : CollisionEvent ℝ),
        e ∈ channelContents pubs L t ↔ ∃ tp, (e, tp) ∈ pubs ∧ tp ≤ t ∧ t < tp + L)
    ∧ (∀ (pubs : List (CollisionEvent ℝ × ℝ)) (L t : ℝ) (e : CollisionEvent ℝ) (tp : ℝ),
        (e, tp) ∈ pubs → (∀ tp', (e, tp') ∈ pubs → tp' = tp) →
          (tp ≤ t ∧ t < tp + L → e ∈ channelContents pubs L t)
          ∧ (tp + L ≤ t → e ∉ channelContents pubs L t))
    ∧ (∀ (events : List (CollisionEvent ℝ)) (eid : (ℤ × ℤ × ℤ) × ℝ) (e : CollisionEvent ℝ),
        e ∈ events → (e ∈ removeCollisionById events eid ↔ e.id ≠ eid))
    ∧ (∀ (events : List (SupernovaEvent ℝ)) (eid : (ℤ × ℤ × ℤ) × ℝ) (e : SupernovaEvent ℝ),
        e ∈ events → (e ∈ removeSupernovaById events eid ↔ e.id ≠ eid)) := by
  refine ⟨?_, ?_, ?_, ?_, ?_⟩
  · intro ops o now s
    constructor
    · intro r hr
      simp only [processFieldDynamics, List.mem_map] at hr
      obtain ⟨e, he, rfl⟩ := hr
      refine ⟨e, ?_, rfl, rfl⟩
      simp only [processFieldDynamics]
      exact List.mem_append_right _ he
    · intro r hr
      simp only [processFieldDynamics, List.mem_map] at hr
      obtain ⟨e, he, rfl⟩ := hr
      refine ⟨e, ?_, rfl, rfl⟩
      simp only [processFieldDynamics]
      exact List.mem_append_right _ he
  · intro pubs L t e
    exact mem_channelContents_iff pubs L t e
  · intro pubs L t e tp hmem huniq
    constructor
    · intro hwin
      exact (mem_channelContents_iff pubs L t e).mpr ⟨tp, hmem, hwin.1, hwin.2⟩
    · intro hpast hcontra
      obtain ⟨tp', hmem', _, h2⟩ := (mem_channelContents_iff pubs L t e).mp hcontra
      rw [huniq tp' hmem'] at h2
      linarith
  · intro events eid e he
    simp [removeCollisionById, List.mem_filter, he]
  · intro events eid e he
    simp [removeSupernovaById, List.mem_filter, he]

/-- Witness for C9: on a one-event channel the removal callback for a
different id keeps the event. -/
theorem claim_c9_event_expiry_witness :
    collisionEventA ∈ removeCollisionById [collisionEventA] ((1, 2, 3), 5)
      ↔ collisionEventA.id ≠ ((1, 2, 3), 5) :=
  claim_c9_event_expiry.2.2.2.1 [collisionEventA] ((1, 2, 3), 5) collisionEventA (by simp)

/-- Witness for C8: at the cap of eight particles a spawn attempt changes
nothing and the population stays at the cap. -/
theorem claim_c8_spawn_cap_noop_witness :
    spawnParticle [] eightParticles none oracleA = eightParticles
      ∧ (spawnParticle [] eightParticles none oracleA).length ≤ MAX_PARTICLES :=
  ⟨claim_c8_spawn_cap_noop.1 [] eightParticles none oracleA
      (by simp [eightParticles, MAX_PARTICLES]),
   claim_c8_spawn_cap_noop.2 [] eightParticles none oracleA
      (by simp [eightParticles, MAX_PARTICLES])⟩

end Claims

end Aether
